import Mathlib

/-!
Verification development for the vcard-normalizer repository.

The Python sources under `src/vcard_normalizer/` are shallowly embedded:
dataclasses become structures, in-place mutation becomes explicit state
passing, Python `sorted(set(...))` becomes an executable insertion sort over
deduplicated lists, and the two external capabilities (rapidfuzz token-sort
ratio and the phonenumbers library) are passed in as function parameters,
exactly as the specification treats them (black-box 0-100 scorer, black-box
parse-and-format capability).

Python string comparison, lower-casing and substring search are modelled on
the underlying character lists so that every definition evaluates inside the
kernel.
-/

namespace VCardNorm

/-! ### Python string primitives -/

/-- Code-point lexicographic comparison of character lists; model of Python
string `<=`. -/
def charListLe : List Char → List Char → Bool
  | [], _ => true
  | _ :: _, [] => false
  | a :: as, b :: bs =>
    if a.toNat < b.toNat then true
    else if b.toNat < a.toNat then false
    else charListLe as bs

/-- Python string `<=`. -/
def pyStrLe (a b : String) : Bool := charListLe a.data b.data

/-- Insert into a sorted list, keeping it sorted. -/
def insertSorted (x : String) : List String → List String
  | [] => [x]
  | y :: ys => if pyStrLe x y then x :: y :: ys else y :: insertSorted x ys

/-- Model of Python `sorted(...)` on strings (insertion sort). -/
def pySort (l : List String) : List String := l.foldr insertSorted []

/-- Model of Python `sorted(set(...))` on strings: deduplicate, then sort. -/
def pySortedSet (l : List String) : List String := pySort l.dedup

/-- Python truthiness of an optional string: `None` and `""` are falsy. -/
def truthy : Option String → Bool
  | none => false
  | some s => !(s == "")

/-- Does `hay` start with `pat`? -/
def startsWithChars : List Char → List Char → Bool
  | [], _ => true
  | _ :: _, [] => false
  | p :: ps, h :: hs => p == h && startsWithChars ps hs

/-- Does `hay` contain `pat` as a contiguous run? -/
def hasSubChars (pat : List Char) : List Char → Bool
  | [] => startsWithChars pat []
  | h :: hs => startsWithChars pat (h :: hs) || hasSubChars pat hs

/-- Model of Python `pat in hay` on strings. -/
def pyIn (pat hay : String) : Bool := hasSubChars pat.data hay.data

/-- Model of Python `str.lower()` (ASCII case folding). -/
def pyLower (s : String) : String := String.mk (s.data.map Char.toLower)

/-! ### Data model (`model.py`)

`Card` mirrors the dataclass in `model.py`.  The structured `name` is kept
abstract through the derived serialisation `n` (the `Card.n` property), which
is all the embedded operations read.  The fields `typed_emails` / `typed_tels`
are NOT declared by the dataclass in `model.py`; they only ever exist when
some caller sets them dynamically.  They are modelled as `Option` fields whose
default `none` means "attribute absent": reading them through `none` is the
`AttributeError` raised by the source.  -/

structure Address where
  po_box : Option String := none
  extended : Option String := none
  street : Option String := none
  locality : Option String := none
  region : Option String := none
  postal_code : Option String := none
  country : Option String := none
deriving DecidableEq, Inhabited

structure TypedValue where
  value : String := ""
  type : String := ""
deriving DecidableEq, Inhabited

structure Card where
  fn : Option String := none
  n : Option String := none
  emails : List String := []
  tels : List String := []
  org : Option String := none
  title : Option String := none
  bday : Option String := none
  uid : Option String := none
  kind : Option String := none
  categories : List String := []
  addresses : List Address := []
  typed_emails : Option (List TypedValue) := none
  typed_tels : Option (List TypedValue) := none
  _changes : List String := []
  _source_files : List String := []
deriving DecidableEq, Inhabited

/-- `Card.log_change` from `model.py`: append one entry to the audit log. -/
def log_change (c : Card) (msg : String) : Card :=
  { c with _changes := c._changes ++ [msg] }

/-! ### Similarity scorer (`_similarity.py`)

The rapidfuzz `fuzz.token_sort_ratio` capability is a parameter
`ratio : String → String → ℚ`; the spec treats it as a black-box 0-100
scorer.  Scores are rationals (the Python floats here are exact decimals). -/

/-- `_tel_key`: strip non-digits, keep the last 9 digits (all of them when
fewer than 9 remain). -/
def _tel_key (t : String) : String :=
  let digits := t.data.filter Char.isDigit
  if 9 ≤ digits.length then String.mk (digits.drop (digits.length - 9))
  else String.mk digits

/-- The email condition of `similarity`: both email lists truthy and the two
sets intersect (exact string equality). -/
def emailsIntersect (a b : Card) : Bool :=
  !a.emails.isEmpty && !b.emails.isEmpty &&
    a.emails.any (fun e => b.emails.contains e)

/-- The phone condition of `similarity`: both `_tel_key` sets truthy and they
intersect. -/
def telKeysIntersect (a b : Card) : Bool :=
  !(a.tels.map _tel_key).isEmpty && !(b.tels.map _tel_key).isEmpty &&
    (a.tels.map _tel_key).any (fun k => (b.tels.map _tel_key).contains k)

/-- The uid short-circuit condition: both uids truthy and equal. -/
def uidMatch (a b : Card) : Bool :=
  truthy a.uid && truthy b.uid && (a.uid == b.uid)

def emailScore (a b : Card) : ℚ := if emailsIntersect a b then 60 else 0

def telScore (a b : Card) : ℚ := if telKeysIntersect a b then 40 else 0

def nameScore (ratio : String → String → ℚ) (a b : Card) : ℚ :=
  if truthy a.fn && truthy b.fn then (0.4 : ℚ) * ratio (a.fn.getD "") (b.fn.getD "")
  else 0

def orgScore (a b : Card) : ℚ :=
  if truthy a.org && truthy b.org &&
      (pyLower (a.org.getD "") == pyLower (b.org.getD "")) then 10 else 0

/-- The accumulated heuristic score of `similarity` before the 100 cap; the
source accumulates the same four summands sequentially with `+=`. -/
def heuristicScore (ratio : String → String → ℚ) (a b : Card) : ℚ :=
  emailScore a b + telScore a b + nameScore ratio a b + orgScore a b

/-- `similarity` from `_similarity.py`. -/
def similarity (ratio : String → String → ℚ) (a b : Card) : ℚ :=
  if uidMatch a b then 100 else min (heuristicScore ratio a b) 100

/-! ### Clustering (`dedupe.py`)

`find_duplicate_clusters` is embedded literally: a fold over the index range
with a `visited` set, the inner scan folding over the later indices.  The
similarity function is a parameter (the module-level import), instantiated
with `similarity ratio` in the theorems. -/

def innerStep (sim : Card → Card → ℚ) (cards : List Card) (c : Card)
    (st : List Nat × List Card) (j : Nat) : List Nat × List Card :=
  if st.1.contains j then st
  else if 70 ≤ sim c (cards.getD j default) then
    (j :: st.1, st.2 ++ [cards.getD j default])
  else st

def outerStep (sim : Card → Card → ℚ) (cards : List Card)
    (acc : List Nat × List (List Card)) (i : Nat) : List Nat × List (List Card) :=
  if acc.1.contains i then acc
  else
    let c := cards.getD i default
    let inner := ((List.range cards.length).drop (i + 1)).foldl
      (innerStep sim cards c) (i :: acc.1, [c])
    (inner.1, acc.2 ++ [inner.2])

/-- `find_duplicate_clusters` from `dedupe.py`. -/
def find_duplicate_clusters (sim : Card → Card → ℚ) (cards : List Card) :
    List (List Card) :=
  ((List.range cards.length).foldl (outerStep sim cards) ([], [])).2

/-- The clustering algorithm as the specification words it: take the first
remaining contact as seed of a new cluster, add every remaining contact whose
similarity against the seed is at least 70, and continue with the rest. -/
def greedy_clusters (sim : Card → Card → ℚ) : List Card → List (List Card)
  | [] => []
  | c :: rest =>
    (c :: rest.filter (fun d => decide (70 ≤ sim c d))) ::
      greedy_clusters sim (rest.filter (fun d => !decide (70 ≤ sim c d)))
termination_by l => l.length
decreasing_by
  simp only [List.length_cons]
  exact Nat.lt_succ_of_le (List.length_filter_le _ _)

/-! ### Automatic merge (`dedupe.py`) -/

/-- The tuple key of Python `max(cluster, key=...)`: (email count + phone
count, display-name length), compared lexicographically. -/
def richKey (c : Card) : Nat × Nat :=
  (c.emails.length + c.tels.length, (c.fn.getD "").length)

def keyLt (x y : Nat × Nat) : Bool :=
  x.1 < y.1 || (x.1 == y.1 && x.2 < y.2)

/-- Python `max(cluster, key=richKey)`: the first member with maximal key.
Python raises on an empty list; the embedding returns the default card. -/
def pickBest (cluster : List Card) : Card :=
  match cluster with
  | [] => default
  | c :: rest => rest.foldl (fun b x => if keyLt (richKey b) (richKey x) then x else b) c

/-- Equality of two category lists viewed as sets. -/
def setEqStr (l₁ l₂ : List String) : Bool :=
  l₁.all (fun x => l₂.contains x) && l₂.all (fun x => l₁.contains x)

/-- `_merge_categories` from `dedupe.py`. -/
def _merge_categories (cluster : List Card) : List String × Bool :=
  let non_empty := (cluster.map Card.categories).filter (fun l => !l.isEmpty)
  match non_empty with
  | [] => ([], false)
  | [s] => (pySortedSet s, false)
  | s :: rest => (pySortedSet ((s :: rest).flatten), rest.any (fun t => !setEqStr t s))

/-- First truthy value of field `f` among the cards, in order (the
`for c in cluster: if f(c): take it; break` idiom). -/
def firstTruthy (f : Card → Option String) : List Card → Option String
  | [] => none
  | c :: rest => if truthy (f c) then f c else firstTruthy f rest

/-- A single apostrophe, for reproducing quoted substrings of log messages. -/
def sq : String := String.mk [Char.ofNat 39]

/-- Stage 1 of `merge_cluster_auto`: replace the base's email and phone lists
with the sorted deduplicated union over the whole cluster. -/
def mergeLists (cluster : List Card) (best : Card) : Card :=
  { best with
    emails := pySortedSet (cluster.flatMap Card.emails),
    tels := pySortedSet (cluster.flatMap Card.tels) }

/-- Stage 2: take the first truthy org when the base has none. -/
def mergeOrg (cluster : List Card) (best : Card) : Card :=
  if truthy best.org then best
  else
    match firstTruthy Card.org cluster with
    | some v => { best with org := some v }
    | none => best

/-- Stage 3: take the first truthy title when the base has none. -/
def mergeTitle (cluster : List Card) (best : Card) : Card :=
  if truthy best.title then best
  else
    match firstTruthy Card.title cluster with
    | some v => { best with title := some v }
    | none => best

/-- Stage 4: union the categories and log the carry-over or conflict. -/
def mergeCategories (cluster : List Card) (best : Card) : Card :=
  let mc := _merge_categories cluster
  if mc.1.isEmpty then best
  else
    let before := best.categories
    let newCats := pySortedSet (best.categories ++ mc.1)
    let gained := newCats.filter (fun x => !before.contains x)
    let best := { best with categories := newCats }
    if gained.isEmpty then best
    else if mc.2 then
      log_change best ("Categories merged (conflict resolved by union): " ++
        String.intercalate ", " newCats)
    else
      log_change best ("Categories carried over from source: " ++
        String.intercalate ", " (pySort gained))

/-- Stage 5: the closing "Auto-merged N duplicate(s)" audit entry. -/
def mergeLog (cluster : List Card) (best : Card) : Card :=
  let merged_names :=
    (cluster.filter (fun c => truthy c.fn && !(c.fn == best.fn))).map (fun c => c.fn.getD "")
  if 1 < cluster.length then
    log_change best ("Auto-merged " ++ toString cluster.length ++ " duplicate(s)" ++
      (if merged_names.isEmpty then ""
       else " (also seen as: " ++ String.intercalate ", " merged_names ++ ")"))
  else best

/-- `merge_cluster_auto` from `dedupe.py`: the five stages of its body run in
source order against the richest member. -/
def merge_cluster_auto (cluster : List Card) : Card :=
  mergeLog cluster (mergeCategories cluster (mergeTitle cluster (mergeOrg cluster
    (mergeLists cluster (pickBest cluster)))))

/-! ### Provenance restoration (`cli.py`, `_run_pipeline` step 6 tail)

The source runs, for each duplicate cluster, a scan over the merged list:

    for m in merged:
        if set(m.emails) & cluster_emails or set(m.tels) & cluster_tels:
            m._source_files = all_sources
            if len(all_sources) > 1: m.log_change("Merged from sources: ...")
            break

`restoreMatches` is the scan's test, `restore_provenance` is the effect of
one scan iteration on the card it examines (the restoration body when the
test fires, nothing otherwise), `restoreScan` is the whole inner loop with
its break — it updates only the FIRST matching card of the merged list — and
`restore_provenance_all` is the outer loop over the duplicate clusters. -/

/-- The scan's test: does card `m` share an email or phone with the
cluster? -/
def restoreMatches (cluster : List Card) (m : Card) : Bool :=
  let cluster_emails := cluster.flatMap Card.emails
  let cluster_tels := cluster.flatMap Card.tels
  m.emails.any (fun e => cluster_emails.contains e) ||
    m.tels.any (fun t => cluster_tels.contains t)

/-- The effect of one scan iteration on the card it examines. -/
def restore_provenance (cluster : List Card) (m : Card) : Card :=
  if restoreMatches cluster m then
    let all_sources := pySortedSet (cluster.flatMap Card._source_files)
    let m := { m with _source_files := all_sources }
    if 1 < all_sources.length then
      log_change m ("Merged from sources: " ++ String.intercalate ", " all_sources)
    else m
  else m

/-- The inner `for m in merged: ... break` loop: restore the first card of
the merged list that shares an email or phone with the cluster, leave every
other card untouched. -/
def restoreScan (cluster : List Card) : List Card → List Card
  | [] => []
  | m :: rest =>
    if restoreMatches cluster m then restore_provenance cluster m :: rest
    else m :: restoreScan cluster rest

/-- The outer `for cluster in dup_clusters` loop of the restoration step. -/
def restore_provenance_all (dup_clusters : List (List Card))
    (merged : List Card) : List Card :=
  dup_clusters.foldl (fun merged cluster => restoreScan cluster merged) merged

/-! ### Interactive merge (`interactive.py`)

`_union` and `_adopt` run the same per-member body; it is factored into
`adoptStep`, folded over the members. -/

/-- The three list-union assignments of the adoption body. -/
def adoptLists (base c : Card) : Card :=
  { base with
    emails := pySortedSet (base.emails ++ c.emails),
    tels := pySortedSet (base.tels ++ c.tels),
    categories := pySortedSet (base.categories ++ c.categories) }

def adoptFn (base c : Card) : Card :=
  if !truthy base.fn && truthy c.fn then { base with fn := c.fn } else base

def adoptOrg (base c : Card) : Card :=
  if !truthy base.org && truthy c.org then { base with org := c.org } else base

def adoptTitle (base c : Card) : Card :=
  if !truthy base.title && truthy c.title then { base with title := c.title } else base

def adoptBday (base c : Card) : Card :=
  if !truthy base.bday && truthy c.bday then { base with bday := c.bday } else base

def adoptUid (base c : Card) : Card :=
  if !truthy base.uid && truthy c.uid then { base with uid := c.uid } else base

def adoptKind (base c : Card) : Card :=
  if !truthy base.kind && truthy c.kind then { base with kind := c.kind } else base

def adoptStep (base c : Card) : Card :=
  adoptKind (adoptUid (adoptBday (adoptTitle (adoptOrg (adoptFn
    (adoptLists base c) c) c) c) c) c) c

/-- `_adopt(base, *others)` from `interactive.py`. -/
def _adopt (base : Card) (others : List Card) : Card := others.foldl adoptStep base

/-- `_union(cards)` from `interactive.py`: pick the richest base, then run the
adoption body over every member (the base included). -/
def _union (cards : List Card) : Card := cards.foldl adoptStep (pickBest cards)

/-! ### Classification and tagging (`formatters.py`) -/

def _DELETE_SENTINEL : String := "__DELETE__"

/-- `_is_email_only` from `formatters.py`. -/
def _is_email_only (c : Card) : Bool :=
  let has_real_name := truthy c.fn && !(pyIn "@" (c.fn.getD "")) &&
    decide (3 < (c.fn.getD "").length)
  let has_org := truthy c.org
  let has_phone := !c.tels.isEmpty
  !(has_real_name || has_org || has_phone)

def _ORG_TOKENS : List String :=
  [" ltd", " limited", " llc", " gmbh", " inc", " plc",
   " co.", " company", " s.r.o", " oy", " corp", " group",
   " associates", " & sons", " & co"]

def _BUSINESS_SECOND_WORDS : List String :=
  ["mechanics", "taxi", "services", "direct", "garage", "dental", "clinic",
   "centre", "center", "school", "college", "group", "solutions", "systems",
   "consulting", "consultants", "hotel", "bar", "restaurant", "cafe", "shop",
   "store", "fitness", "gym", "academy", "training", "logistics", "transport",
   "byfleet", "weybridge", "team", "support", "care", "health", "management",
   "property", "estate", "estates", "law", "legal", "finance", "financial",
   "media", "digital", "technology", "tech", "engineering"]

def isUpperAZ (ch : Char) : Bool := 65 ≤ ch.toNat && ch.toNat ≤ 90

def isLowerAZ (ch : Char) : Bool := 97 ≤ ch.toNat && ch.toNat ≤ 122

def isNameTailChar (ch : Char) : Bool :=
  isLowerAZ ch || isUpperAZ ch || ch == Char.ofNat 39

/-- Split a character list at every space, keeping empty pieces (Python
`str.split(" ")` / the structure imposed by the single-space regex). -/
def splitOnSpace : List Char → List (List Char)
  | [] => [[]]
  | ch :: rest =>
    let r := splitOnSpace rest
    if ch == ' ' then [] :: r
    else
      match r with
      | [] => [[ch]]
      | w :: ws => (ch :: w) :: ws

/-- First word of `_PERSONAL_NAME_RE`: one capital, then 1-20 lowercase. -/
def reWord1 (w : List Char) : Bool :=
  match w with
  | [] => false
  | h :: t => isUpperAZ h && decide (1 ≤ t.length) && decide (t.length ≤ 20) &&
      t.all isLowerAZ

/-- Second word of `_PERSONAL_NAME_RE`: one capital, then 1-20 letters or
apostrophes. -/
def reWord2 (w : List Char) : Bool :=
  match w with
  | [] => false
  | h :: t => isUpperAZ h && decide (1 ≤ t.length) && decide (t.length ≤ 20) &&
      t.all isNameTailChar

/-- Anchored match of `_PERSONAL_NAME_RE`: the whole string is word1, one
space, word2 (the character classes exclude the space). -/
def _personal_name_match (s : String) : Bool :=
  match splitOnSpace s.data with
  | [w1, w2] => reWord1 w1 && reWord2 w2
  | _ => false

/-- `_looks_like_person` from `formatters.py`. -/
def _looks_like_person (fn : String) : Bool :=
  if !_personal_name_match fn then false
  else
    let words := (splitOnSpace (pyLower fn).data).filter (fun w => !w.isEmpty)
    if words.length != 2 then false
    else
      let w0 := String.mk (words.getD 0 [])
      let w1 := String.mk (words.getD 1 [])
      !(_BUSINESS_SECOND_WORDS.contains w1 || _BUSINESS_SECOND_WORDS.contains w0)

/-- `classify_entities` body for one card. -/
def classify_card (c : Card) : Card :=
  if truthy c.kind then c
  else if _is_email_only c then c
  else
    let name := pyLower (c.fn.getD "")
    let org_name := pyLower (c.org.getD "")
    let is_org := _ORG_TOKENS.any (fun tok => pyIn tok org_name) ||
      _ORG_TOKENS.any (fun tok => pyIn tok name)
    if is_org then
      log_change { c with kind := some "org" } ("KIND set to " ++ sq ++ "org" ++ sq)
    else if _looks_like_person (c.fn.getD "") && !c.tels.isEmpty then
      log_change { c with kind := some "individual" }
        ("KIND set to " ++ sq ++ "individual" ++ sq)
    else c

/-- `classify_entities` from `formatters.py` (in-place loop as a map). -/
def classify_entities (cards : List Card) : List Card := cards.map classify_card

def _DEFAULT_CATEGORY_RULES : List (String × List String) :=
  [("Work", [" ltd", " limited", " llc", " gmbh", " inc", " plc", " corp",
             " company", " group", " associates"]),
   ("Family", []),
   ("Friends", []),
   ("School", ["school", "college", "university", "uni ", "academy", ".edu"]),
   ("Medical", ["doctor", "dr.", "gp ", "clinic", "hospital", "pharmacy", "nhs", "health"]),
   ("Finance", ["bank", "insurance", "mortgage", "accountant", "finance", "tax"]),
   ("Government", ["council", ".gov.uk", "hmrc", "police", "fire service", "mod.gov"])]

/-- `_matches_rule` from `formatters.py`; the `re.search` capability used for
patterns carrying the regex marker is a parameter. -/
def _matches_rule (regexSearch : String → String → Bool) (c : Card)
    (patterns : List String) : Bool :=
  let fields := ([c.fn, c.org, c.title].filterMap id).filter (fun s => !(s == ""))
  let haystack := pyLower (String.intercalate " " fields)
  patterns.any (fun pat =>
    if startsWithChars "re:".data pat.data then
      regexSearch (String.mk (pat.data.drop 3)) haystack
    else pyIn pat haystack)

/-- One iteration of the `auto_tag_categories` rule loop: `st` carries the
card being mutated and the `added` list. -/
def auto_tag_step (regexSearch : String → String → Bool)
    (st : Card × List String) (rule : String × List String) : Card × List String :=
  if rule.2.isEmpty then st
  else if st.1.categories.contains rule.1 then st
  else if _matches_rule regexSearch st.1 rule.2 then
    ({ st.1 with categories := st.1.categories ++ [rule.1] }, st.2 ++ [rule.1])
  else st

/-- `auto_tag_categories` body for one card. -/
def auto_tag_card (regexSearch : String → String → Bool)
    (rules : List (String × List String)) (c : Card) : Card :=
  if _is_email_only c then c
  else
    let st := rules.foldl (auto_tag_step regexSearch) (c, [])
    if st.2.isEmpty then st.1
    else
      log_change { st.1 with categories := pySortedSet st.1.categories }
        ("Auto-tagged categories: " ++ String.intercalate ", " (pySort st.2))

/-- `auto_tag_categories` from `formatters.py` (in-place loop as a map). -/
def auto_tag_categories (regexSearch : String → String → Bool)
    (rules : List (String × List String)) (cards : List Card) : List Card :=
  cards.map (auto_tag_card regexSearch rules)

/-! ### Phone normalisation (`formatters.py`)

The phonenumbers library is the parameter `parseFmt region raw`: it returns
the spaced international form when the parse succeeds and the number is
possible and valid, and `none` otherwise (covering both an invalid number and
`NumberParseException`; the source appends the raw string unchanged in both
cases). -/

def pyUpper (s : String) : String := String.mk (s.data.map Char.toUpper)

def pyTrim (s : String) : String :=
  String.mk (((s.data.dropWhile Char.isWhitespace).reverse.dropWhile Char.isWhitespace).reverse)

def _COUNTRY_NAME_MAP : List (String × String) :=
  [("United Kingdom", "GB"), ("UK", "GB"), ("Great Britain", "GB"),
   ("England", "GB"), ("Scotland", "GB"), ("Wales", "GB"),
   ("Northern Ireland", "GB"), ("United States", "US"), ("USA", "US"),
   ("Australia", "AU"), ("Canada", "CA"), ("Ireland", "IE"),
   ("France", "FR"), ("Germany", "DE"), ("Spain", "ES"),
   ("Italy", "IT"), ("Netherlands", "NL"), ("Sweden", "SE")]

def inferRegionGo : List Address → Option String
  | [] => none
  | adr :: rest =>
    match adr.country with
    | none => inferRegionGo rest
    | some country =>
      if country == "" then inferRegionGo rest
      else
        let cc := pyTrim country
        if cc == "" then inferRegionGo rest
        else if cc.length == 2 && cc.data.all Char.isAlpha then some (pyUpper cc)
        else
          match (_COUNTRY_NAME_MAP.find? (fun p => p.1 == cc)).map Prod.snd with
          | some r => some r
          | none => inferRegionGo rest

/-- `_infer_region_from_addresses` from `formatters.py`. -/
def _infer_region_from_addresses (c : Card) : Option String :=
  inferRegionGo c.addresses

/-- `normalize_phones_in_cards` body for one card. -/
def normalize_phones_card (parseFmt : String → String → Option String)
    (default_region : String) (infer_from_adr : Bool) (c : Card) : Card :=
  let region₀ := if infer_from_adr then _infer_region_from_addresses c else none
  let region := match region₀ with
    | some r => if r == "" then default_region else r
    | none => default_region
  let st := c.tels.foldl (fun (st : List String × List String) raw =>
    match parseFmt region raw with
    | some formatted =>
      (st.1 ++ [formatted],
       if formatted == raw then st.2
       else st.2 ++ [sq ++ raw ++ sq ++ " → " ++ sq ++ formatted ++ sq])
    | none => (st.1 ++ [raw], st.2)) ([], [])
  let c := { c with tels := pySortedSet st.1 }
  if st.2.isEmpty then c
  else log_change c ("Phone(s) reformatted: " ++ String.intercalate "; " st.2)

/-! ### Review operations (`formatters.py`, `prompt_review_uncategorised` and
`prompt_categories_interactive`), modelled per card with the user decision as
a parameter. -/

/-- A delete decision during review. -/
def review_delete_card (c : Card) : Card :=
  log_change { c with categories := [_DELETE_SENTINEL] }
    "Marked for deletion during review"

/-- An assign decision during the uncategorised review: the chosen categories
are unioned in. -/
def review_assign_card (chosen : List String) (c : Card) : Card :=
  if chosen.isEmpty then c
  else
    let before := c.categories
    let newCats := pySortedSet (c.categories ++ chosen)
    let added := newCats.filter (fun x => !before.contains x)
    let c := { c with categories := newCats }
    if added.isEmpty then c
    else
      log_change c ("Categories assigned in review: " ++
        String.intercalate ", " (pySort added))

/-- The legacy interactive category edit: the entered list replaces the
card's categories, and both additions and removals are logged. -/
def interactive_categories_card (chosen : List String) (c : Card) : Card :=
  let before := c.categories
  let newCats := pySortedSet chosen
  let c := { c with categories := newCats }
  let added := newCats.filter (fun x => !before.contains x)
  let removed := before.filter (fun x => !newCats.contains x)
  let c :=
    if added.isEmpty then c
    else log_change c ("Categories added interactively: " ++
      String.intercalate ", " (pySort added))
  if removed.isEmpty then c
  else log_change c ("Categories removed interactively: " ++
    String.intercalate ", " (pySort removed))

/-! ### Export (`exporter.py`)

`_serialise_one` builds the whole record inside one try/except that returns
the empty string on any exception.  The vobject assembly is modelled by the
property lines the function adds.  The expressions `c.typed_emails` and
`c.typed_tels` read attributes that the `Card` dataclass in `model.py` does
not declare; on a card where no caller ever set them (every card produced by
`normalize_cards`) the access raises `AttributeError`, which the enclosing
handler turns into the empty-string failure return.  That is the `none`
branch below. -/

def pyOr (a b : Option String) : Option String := if truthy a then a else b

def _serialise_one (c : Card) (target_version : String) : String :=
  match c.typed_emails, c.typed_tels with
  | some _, some _ =>
    let fn := (pyOr (pyOr c.fn c.n) (some "Unnamed")).getD "Unnamed"
    "BEGIN:VCARD\n" ++ "VERSION:" ++ target_version ++ "\n" ++ "FN:" ++ fn ++ "\n" ++
      String.intercalate "" ((pySortedSet c.emails).map (fun e => "EMAIL:" ++ e ++ "\n")) ++
      String.intercalate "" ((pySortedSet c.tels).map (fun t => "TEL:" ++ t ++ "\n")) ++
      (if truthy c.uid then "UID:" ++ c.uid.getD "" ++ "\n" else "") ++
      (if c.categories.isEmpty then ""
       else "CATEGORIES:" ++ String.intercalate "," (pySortedSet c.categories) ++ "\n") ++
      "END:VCARD\n"
  | _, _ => ""

/-- The sort key of `export_vcards`: `(c.fn or "", c.n or "")`. -/
def exportKeyLe (a b : Card) : Bool :=
  if (a.fn.getD "") == (b.fn.getD "") then pyStrLe (a.n.getD "") (b.n.getD "")
  else pyStrLe (a.fn.getD "") (b.fn.getD "")

def insertSortedCard (le : Card → Card → Bool) (x : Card) : List Card → List Card
  | [] => [x]
  | y :: ys => if le x y then x :: y :: ys else y :: insertSortedCard le x ys

/-- Model of Python stable `sorted` over cards. -/
def pySortCards (le : Card → Card → Bool) (l : List Card) : List Card :=
  l.foldr (insertSortedCard le) []

/-- `export_vcards` from `exporter.py`, reduced to the count accounting: sort
the cards, serialise each, skip the failures; the return value is the number
written. -/
def export_vcards (cards : List Card) (target_version : String) : Nat :=
  let cards_sorted := pySortCards exportKeyLe cards
  let skipped := (cards_sorted.map (fun c => _serialise_one c target_version)).countP
    (fun s => s == "")
  cards_sorted.length - skipped

/-! ## Theorems -/

/-! ### C7 — phone key symmetry -/

/-- The contact holding the local phone form. -/
def cardLocalTel : Card := { tels := ["07980220220"] }

/-- The contact holding the international phone form. -/
def cardIntlTel : Card := { tels := ["+447980220220"] }

/-- C7: the phone comparison key is the last 9 digits of the digit-stripped
phone string, so the key of "+447980220220" equals the key of "07980220220",
and two uid-less contacts carrying these two forms gain the +40 phone
component: their similarity is at least 40 whatever the name scorer does. -/
theorem c7_phone_key_symmetry :
    _tel_key "+447980220220" = _tel_key "07980220220" ∧
    ∀ ratio : String → String → ℚ, 40 ≤ similarity ratio cardLocalTel cardIntlTel := by
  constructor
  · decide
  · intro ratio
    have hu : uidMatch cardLocalTel cardIntlTel = false := by decide
    have he : emailsIntersect cardLocalTel cardIntlTel = false := by decide
    have ht : telKeysIntersect cardLocalTel cardIntlTel = true := by decide
    have hn : (truthy cardLocalTel.fn && truthy cardIntlTel.fn) = false := by decide
    have ho : (truthy cardLocalTel.org && truthy cardIntlTel.org &&
        (pyLower (cardLocalTel.org.getD "") == pyLower (cardIntlTel.org.getD ""))) = false := by
      decide
    simp only [similarity, heuristicScore, emailScore, telScore, nameScore, orgScore,
      hu, he, ht, hn, ho]
    norm_num

/-- C7 witness: the theorem applied to the zero ratio function. -/
theorem c7_phone_key_symmetry_witness :
    _tel_key "+447980220220" = _tel_key "07980220220" ∧
    40 ≤ similarity (fun _ _ => 0) cardLocalTel cardIntlTel :=
  ⟨c7_phone_key_symmetry.1, c7_phone_key_symmetry.2 (fun _ _ => 0)⟩

/-! ### C3 — when similarity reaches 100 -/

/-- A uid-less contact with one email and one phone. -/
def cardEmailTelA : Card := { emails := ["pat@example.com"], tels := ["07980220220"] }

/-- A second uid-less contact sharing the email and the phone key. -/
def cardEmailTelB : Card := { emails := ["pat@example.com"], tels := ["+447980220220"] }

/-- C3 counterexample: two contacts with no uid at all score exactly 100
(shared email gives 60, shared phone key gives 40, capped sum 100), so uid
equality is not the only way to reach the certainly-identical score. -/
theorem c3_counterexample_hundred_without_uid :
    similarity (fun _ _ => 0) cardEmailTelA cardEmailTelB = 100 ∧
    cardEmailTelA.uid = none ∧ cardEmailTelB.uid = none ∧
    uidMatch cardEmailTelA cardEmailTelB = false := by
  refine ⟨?_, rfl, rfl, by decide⟩
  have hu : uidMatch cardEmailTelA cardEmailTelB = false := by decide
  have he : emailsIntersect cardEmailTelA cardEmailTelB = true := by decide
  have ht : telKeysIntersect cardEmailTelA cardEmailTelB = true := by decide
  have hn : (truthy cardEmailTelA.fn && truthy cardEmailTelB.fn) = false := by decide
  have ho : (truthy cardEmailTelA.org && truthy cardEmailTelB.org &&
      (pyLower (cardEmailTelA.org.getD "") == pyLower (cardEmailTelB.org.getD ""))) = false := by
    decide
  simp only [similarity, heuristicScore, emailScore, telScore, nameScore, orgScore,
    hu, he, ht, hn, ho]
  norm_num

/-- C3 amended: equal non-empty uids short-circuit to 100, but uid equality is
not the only way to score 100: without a uid match the score is 100 exactly
when the heuristic components reach the 100 cap, and in particular a shared
email together with a shared phone key already forces 100 for any nonnegative
name scorer. -/
theorem c3_similarity_hundred_characterised
    (ratio : String → String → ℚ) (hr : ∀ s t, 0 ≤ ratio s t) (a b : Card) :
    (uidMatch a b = true → similarity ratio a b = 100) ∧
    (similarity ratio a b = 100 ↔
      uidMatch a b = true ∨ 100 ≤ heuristicScore ratio a b) ∧
    (uidMatch a b = false → emailsIntersect a b = true → telKeysIntersect a b = true →
      similarity ratio a b = 100) := by
  have hname : 0 ≤ nameScore ratio a b := by
    unfold nameScore
    split
    · exact mul_nonneg (by norm_num) (hr _ _)
    · exact le_refl 0
  have horg : 0 ≤ orgScore a b := by
    unfold orgScore
    split
    · norm_num
    · exact le_refl 0
  refine ⟨?_, ?_, ?_⟩
  · intro h
    simp [similarity, h]
  · by_cases h : uidMatch a b = true
    · simp [similarity, h]
    · have hb : uidMatch a b = false := by
        cases hx : uidMatch a b
        · rfl
        · exact absurd hx h
      simp only [similarity, hb, Bool.false_eq_true, if_false]
      constructor
      · intro hmin
        refine Or.inr ?_
        have hle := min_le_left (heuristicScore ratio a b) 100
        rw [hmin] at hle
        exact hle
      · rintro (h100 | h100)
        · exact h100.elim
        · exact min_eq_right h100
  · intro hu he ht
    have hheu : 100 ≤ heuristicScore ratio a b := by
      have : heuristicScore ratio a b =
          60 + 40 + nameScore ratio a b + orgScore a b := by
        simp [heuristicScore, emailScore, telScore, he, ht]
      rw [this]
      linarith [hname, horg]
    simp only [similarity, hu, Bool.false_eq_true, if_false]
    exact min_eq_right hheu

/-- C3 witness: the amended characterisation applied to the zero ratio
function and the two concrete email-and-phone contacts. -/
theorem c3_similarity_hundred_characterised_witness :
    (uidMatch cardEmailTelA cardEmailTelB = true →
      similarity (fun _ _ => 0) cardEmailTelA cardEmailTelB = 100) ∧
    (similarity (fun _ _ => 0) cardEmailTelA cardEmailTelB = 100 ↔
      uidMatch cardEmailTelA cardEmailTelB = true ∨
        100 ≤ heuristicScore (fun _ _ => 0) cardEmailTelA cardEmailTelB) ∧
    (uidMatch cardEmailTelA cardEmailTelB = false →
      emailsIntersect cardEmailTelA cardEmailTelB = true →
      telKeysIntersect cardEmailTelA cardEmailTelB = true →
      similarity (fun _ _ => 0) cardEmailTelA cardEmailTelB = 100) :=
  c3_similarity_hundred_characterised (fun _ _ => 0) (fun _ _ => le_refl 0)
    cardEmailTelA cardEmailTelB

/-! ### C4 — the email component and case folding -/

/-- The spec-level case-folded email intersection test. -/
def emailsIntersectFolded (a b : Card) : Bool :=
  (a.emails.map pyLower).any (fun e => (b.emails.map pyLower).contains e)

/-- `emailsIntersect` in predicate form. -/
theorem emailsIntersect_iff (a b : Card) :
    emailsIntersect a b = true ↔ ∃ e ∈ a.emails, e ∈ b.emails := by
  unfold emailsIntersect
  constructor
  · intro h
    simp only [Bool.and_eq_true, List.any_eq_true] at h
    obtain ⟨-, e, he, hc⟩ := h
    exact ⟨e, he, by simpa using hc⟩
  · rintro ⟨e, hea, heb⟩
    simp only [Bool.and_eq_true, List.any_eq_true]
    refine ⟨⟨?_, ?_⟩, e, hea, by simpa using heb⟩
    · simp [List.isEmpty_iff]
      exact List.ne_nil_of_mem hea
    · simp [List.isEmpty_iff]
      exact List.ne_nil_of_mem heb

/-- `emailsIntersectFolded` in predicate form. -/
theorem emailsIntersectFolded_iff (a b : Card) :
    emailsIntersectFolded a b = true ↔
      ∃ e ∈ a.emails, ∃ f ∈ b.emails, pyLower e = pyLower f := by
  unfold emailsIntersectFolded
  simp only [List.any_eq_true, List.mem_map]
  constructor
  · rintro ⟨x, ⟨e, hea, rfl⟩, hc⟩
    have : pyLower e ∈ b.emails.map pyLower := by simpa using hc
    obtain ⟨f, hfb, hf⟩ := List.mem_map.mp this
    exact ⟨e, hea, f, hfb, hf.symm⟩
  · rintro ⟨e, hea, f, hfb, hef⟩
    refine ⟨pyLower e, ⟨e, hea, rfl⟩, ?_⟩
    have : pyLower e ∈ b.emails.map pyLower := hef ▸ List.mem_map_of_mem pyLower hfb
    simp [this]

/-- Under the canonical lower-cased representation the exact and the folded
intersection tests agree. -/
theorem emailsIntersect_eq_folded (a b : Card)
    (ha : ∀ e ∈ a.emails, pyLower e = e) (hb : ∀ e ∈ b.emails, pyLower e = e) :
    emailsIntersect a b = emailsIntersectFolded a b := by
  cases hf : emailsIntersectFolded a b
  · cases he : emailsIntersect a b
    · rfl
    · exfalso
      obtain ⟨e, hea, heb⟩ := (emailsIntersect_iff a b).mp he
      have : emailsIntersectFolded a b = true :=
        (emailsIntersectFolded_iff a b).mpr ⟨e, hea, e, heb, rfl⟩
      rw [hf] at this
      exact Bool.false_ne_true this
  · obtain ⟨e, hea, f, hfb, hef⟩ := (emailsIntersectFolded_iff a b).mp hf
    have hef' : e = f := by rw [← ha e hea, ← hb f hfb, hef]
    exact (emailsIntersect_iff a b).mpr ⟨e, hea, hef' ▸ hfb⟩

/-- A contact holding an upper-cased spelling of an address. -/
def cardUpperEmail : Card := { emails := ["Alice@X.com"] }

/-- A contact holding the lower-cased spelling of the same address. -/
def cardLowerEmail : Card := { emails := ["alice@x.com"] }

/-- C4 counterexample: the source compares email sets exactly, not
case-folded: the case-folded email sets of these two contacts intersect, yet
the +60 email component does not fire and the similarity is 0, not 60. -/
theorem c4_counterexample_exact_not_folded :
    emailsIntersectFolded cardUpperEmail cardLowerEmail = true ∧
    emailScore cardUpperEmail cardLowerEmail = 0 ∧
    similarity (fun _ _ => 0) cardUpperEmail cardLowerEmail = 0 := by
  have he : emailsIntersect cardUpperEmail cardLowerEmail = false := by decide
  have hu : uidMatch cardUpperEmail cardLowerEmail = false := by decide
  have ht : telKeysIntersect cardUpperEmail cardLowerEmail = false := by decide
  have hn : (truthy cardUpperEmail.fn && truthy cardLowerEmail.fn) = false := by decide
  have ho : (truthy cardUpperEmail.org && truthy cardLowerEmail.org &&
      (pyLower (cardUpperEmail.org.getD "") == pyLower (cardLowerEmail.org.getD ""))) = false := by
    decide
  refine ⟨by decide, ?_, ?_⟩
  · simp [emailScore, he]
  · simp only [similarity, heuristicScore, emailScore, telScore, nameScore, orgScore,
      hu, he, ht, hn, ho]
    norm_num

/-- C4 amended: the +60 email component fires precisely when the email sets
intersect exactly; since canonicalization lower-cases every email
(`normalize_cards`), on canonical contacts this is the same test as
case-folded intersection, so two canonical contacts holding the same address
gain the +60 component. -/
theorem c4_email_component_casefolded_on_canonical
    (ratio : String → String → ℚ) (a b : Card)
    (ha : ∀ e ∈ a.emails, pyLower e = e) (hb : ∀ e ∈ b.emails, pyLower e = e)
    (hu : uidMatch a b = false) :
    emailScore a b = (if emailsIntersectFolded a b then (60 : ℚ) else 0) ∧
    similarity ratio a b =
      min ((if emailsIntersectFolded a b then (60 : ℚ) else 0) + telScore a b +
        nameScore ratio a b + orgScore a b) 100 := by
  have key : emailsIntersect a b = emailsIntersectFolded a b :=
    emailsIntersect_eq_folded a b ha hb
  constructor
  · rw [emailScore, key]
  · rw [similarity, if_neg (by simp [hu]), heuristicScore, emailScore, key]

/-- C4 witness: the amended theorem applied to two canonical (lower-cased)
contacts sharing an address. -/
theorem c4_email_component_casefolded_witness :
    emailScore cardLowerEmail cardLowerEmail =
      (if emailsIntersectFolded cardLowerEmail cardLowerEmail then (60 : ℚ) else 0) ∧
    similarity (fun _ _ => 0) cardLowerEmail cardLowerEmail =
      min ((if emailsIntersectFolded cardLowerEmail cardLowerEmail then (60 : ℚ) else 0) +
        telScore cardLowerEmail cardLowerEmail +
        nameScore (fun _ _ => 0) cardLowerEmail cardLowerEmail +
        orgScore cardLowerEmail cardLowerEmail) 100 :=
  c4_email_component_casefolded_on_canonical (fun _ _ => 0) cardLowerEmail cardLowerEmail
    (by decide) (by decide) (by decide)

/-! ### C8 — email-only contacts are never classified or tagged -/

/-- A contact holding nothing but an email address. -/
def cardEmailOnly : Card := { emails := ["john@gmail.com"] }

/-- C8: a contact with no real name, no organization and no phone (the
`_is_email_only` test) is returned unchanged by the classification pass and by
the auto-tagging pass, for any rule set and any regex capability: it gains no
kind and no category. -/
theorem c8_email_only_untouched (c : Card) (h : _is_email_only c = true) :
    classify_card c = c ∧ (classify_card c).kind = c.kind ∧
    ∀ (regexSearch : String → String → Bool) (rules : List (String × List String)),
      auto_tag_card regexSearch rules c = c ∧
        (auto_tag_card regexSearch rules c).categories = c.categories := by
  have h1 : classify_card c = c := by
    unfold classify_card
    split
    · rfl
    · simp [h]
  refine ⟨h1, by rw [h1], ?_⟩
  intro regexSearch rules
  have h2 : auto_tag_card regexSearch rules c = c := by
    unfold auto_tag_card
    simp [h]
  exact ⟨h2, by rw [h2]⟩

/-- C8 witness: the theorem applied to the concrete email-only contact and
the default rule set. -/
theorem c8_email_only_untouched_witness :
    classify_card cardEmailOnly = cardEmailOnly ∧
    (classify_card cardEmailOnly).kind = cardEmailOnly.kind ∧
    ∀ (regexSearch : String → String → Bool) (rules : List (String × List String)),
      auto_tag_card regexSearch rules cardEmailOnly = cardEmailOnly ∧
        (auto_tag_card regexSearch rules cardEmailOnly).categories =
          cardEmailOnly.categories :=
  c8_email_only_untouched cardEmailOnly (by decide)

/-! ### C10 — interactive merge adopts fn, bday, uid and kind -/

@[simp] theorem adoptLists_fn (b c : Card) : (adoptLists b c).fn = b.fn := rfl
@[simp] theorem adoptLists_bday (b c : Card) : (adoptLists b c).bday = b.bday := rfl
@[simp] theorem adoptLists_uid (b c : Card) : (adoptLists b c).uid = b.uid := rfl
@[simp] theorem adoptLists_kind (b c : Card) : (adoptLists b c).kind = b.kind := rfl
@[simp] theorem adoptLists_changes (b c : Card) : (adoptLists b c)._changes = b._changes := rfl

@[simp] theorem adoptFn_fn (b c : Card) :
    (adoptFn b c).fn = if !truthy b.fn && truthy c.fn then c.fn else b.fn := by
  unfold adoptFn; split <;> rfl
@[simp] theorem adoptFn_bday (b c : Card) : (adoptFn b c).bday = b.bday := by
  unfold adoptFn; split <;> rfl
@[simp] theorem adoptFn_uid (b c : Card) : (adoptFn b c).uid = b.uid := by
  unfold adoptFn; split <;> rfl
@[simp] theorem adoptFn_kind (b c : Card) : (adoptFn b c).kind = b.kind := by
  unfold adoptFn; split <;> rfl
@[simp] theorem adoptFn_changes (b c : Card) : (adoptFn b c)._changes = b._changes := by
  unfold adoptFn; split <;> rfl

@[simp] theorem adoptOrg_fn (b c : Card) : (adoptOrg b c).fn = b.fn := by
  unfold adoptOrg; split <;> rfl
@[simp] theorem adoptOrg_bday (b c : Card) : (adoptOrg b c).bday = b.bday := by
  unfold adoptOrg; split <;> rfl
@[simp] theorem adoptOrg_uid (b c : Card) : (adoptOrg b c).uid = b.uid := by
  unfold adoptOrg; split <;> rfl
@[simp] theorem adoptOrg_kind (b c : Card) : (adoptOrg b c).kind = b.kind := by
  unfold adoptOrg; split <;> rfl
@[simp] theorem adoptOrg_changes (b c : Card) : (adoptOrg b c)._changes = b._changes := by
  unfold adoptOrg; split <;> rfl

@[simp] theorem adoptTitle_fn (b c : Card) : (adoptTitle b c).fn = b.fn := by
  unfold adoptTitle; split <;> rfl
@[simp] theorem adoptTitle_bday (b c : Card) : (adoptTitle b c).bday = b.bday := by
  unfold adoptTitle; split <;> rfl
@[simp] theorem adoptTitle_uid (b c : Card) : (adoptTitle b c).uid = b.uid := by
  unfold adoptTitle; split <;> rfl
@[simp] theorem adoptTitle_kind (b c : Card) : (adoptTitle b c).kind = b.kind := by
  unfold adoptTitle; split <;> rfl
@[simp] theorem adoptTitle_changes (b c : Card) : (adoptTitle b c)._changes = b._changes := by
  unfold adoptTitle; split <;> rfl

@[simp] theorem adoptBday_fn (b c : Card) : (adoptBday b c).fn = b.fn := by
  unfold adoptBday; split <;> rfl
@[simp] theorem adoptBday_bday (b c : Card) :
    (adoptBday b c).bday = if !truthy b.bday && truthy c.bday then c.bday else b.bday := by
  unfold adoptBday; split <;> rfl
@[simp] theorem adoptBday_uid (b c : Card) : (adoptBday b c).uid = b.uid := by
  unfold adoptBday; split <;> rfl
@[simp] theorem adoptBday_kind (b c : Card) : (adoptBday b c).kind = b.kind := by
  unfold adoptBday; split <;> rfl
@[simp] theorem adoptBday_changes (b c : Card) : (adoptBday b c)._changes = b._changes := by
  unfold adoptBday; split <;> rfl

@[simp] theorem adoptUid_fn (b c : Card) : (adoptUid b c).fn = b.fn := by
  unfold adoptUid; split <;> rfl
@[simp] theorem adoptUid_bday (b c : Card) : (adoptUid b c).bday = b.bday := by
  unfold adoptUid; split <;> rfl
@[simp] theorem adoptUid_uid (b c : Card) :
    (adoptUid b c).uid = if !truthy b.uid && truthy c.uid then c.uid else b.uid := by
  unfold adoptUid; split <;> rfl
@[simp] theorem adoptUid_kind (b c : Card) : (adoptUid b c).kind = b.kind := by
  unfold adoptUid; split <;> rfl
@[simp] theorem adoptUid_changes (b c : Card) : (adoptUid b c)._changes = b._changes := by
  unfold adoptUid; split <;> rfl

@[simp] theorem adoptKind_fn (b c : Card) : (adoptKind b c).fn = b.fn := by
  unfold adoptKind; split <;> rfl
@[simp] theorem adoptKind_bday (b c : Card) : (adoptKind b c).bday = b.bday := by
  unfold adoptKind; split <;> rfl
@[simp] theorem adoptKind_uid (b c : Card) : (adoptKind b c).uid = b.uid := by
  unfold adoptKind; split <;> rfl
@[simp] theorem adoptKind_kind (b c : Card) :
    (adoptKind b c).kind = if !truthy b.kind && truthy c.kind then c.kind else b.kind := by
  unfold adoptKind; split <;> rfl
@[simp] theorem adoptKind_changes (b c : Card) : (adoptKind b c)._changes = b._changes := by
  unfold adoptKind; split <;> rfl

theorem adoptStep_fn (b c : Card) :
    (adoptStep b c).fn = if !truthy b.fn && truthy c.fn then c.fn else b.fn := by
  simp [adoptStep]

theorem adoptStep_bday (b c : Card) :
    (adoptStep b c).bday = if !truthy b.bday && truthy c.bday then c.bday else b.bday := by
  simp [adoptStep]

theorem adoptStep_uid (b c : Card) :
    (adoptStep b c).uid = if !truthy b.uid && truthy c.uid then c.uid else b.uid := by
  simp [adoptStep]

theorem adoptStep_kind (b c : Card) :
    (adoptStep b c).kind = if !truthy b.kind && truthy c.kind then c.kind else b.kind := by
  simp [adoptStep]

/-- What the adoption fold does to one set-once scalar field: keep the base's
truthy value, otherwise take the first truthy value among the members. -/
theorem foldl_adoptStep_field (f : Card → Option String)
    (hf : ∀ b c, f (adoptStep b c) = if !truthy (f b) && truthy (f c) then f c else f b) :
    ∀ (others : List Card) (base : Card),
      f (others.foldl adoptStep base) =
        if truthy (f base) then f base
        else
          match firstTruthy f others with
          | some v => some v
          | none => f base := by
  intro others
  induction others with
  | nil =>
    intro base
    cases h : truthy (f base) <;> simp [firstTruthy, h]
  | cons c rest ih =>
    intro base
    rw [List.foldl_cons, ih (adoptStep base c), hf base c]
    cases hb : truthy (f base)
    · cases hc : truthy (f c)
      · simp [hb, hc, firstTruthy]
      · cases hv : f c with
        | none => rw [hv] at hc; simp [truthy] at hc
        | some v =>
          have htv : truthy (some v) = true := hv ▸ hc
          simp [hb, hc, hv, htv, firstTruthy]
    · simp [hb]

/-- The first truthy value that `firstTruthy` returns belongs to a member. -/
theorem firstTruthy_mem (f : Card → Option String) :
    ∀ (l : List Card) (v : String), firstTruthy f l = some v →
      ∃ c ∈ l, f c = some v ∧ truthy (f c) = true := by
  intro l
  induction l with
  | nil => intro v h; simp [firstTruthy] at h
  | cons c rest ih =>
    intro v h
    unfold firstTruthy at h
    by_cases hc : truthy (f c) = true
    · rw [if_pos hc] at h
      exact ⟨c, List.mem_cons_self c rest, h, hc⟩
    · rw [if_neg (by simpa using hc)] at h
      obtain ⟨d, hd, hfd⟩ := ih v h
      exact ⟨d, List.mem_cons_of_mem c hd, hfd⟩

theorem firstTruthy_eq_some_of_exists (f : Card → Option String) :
    ∀ (l : List Card), (∃ c ∈ l, truthy (f c) = true) →
      ∃ v, firstTruthy f l = some v := by
  intro l
  induction l with
  | nil => rintro ⟨c, hc, -⟩; exact absurd hc (List.not_mem_nil c)
  | cons c rest ih =>
    rintro ⟨d, hd, htr⟩
    by_cases hc : truthy (f c) = true
    · cases hv : f c with
      | none => rw [hv] at hc; simp [truthy] at hc
      | some v => exact ⟨v, by unfold firstTruthy; rw [if_pos hc, hv]⟩
    · rcases List.mem_cons.mp hd with rfl | hd'
      · exact absurd htr hc
      · obtain ⟨v, hv⟩ := ih ⟨d, hd', htr⟩
        exact ⟨v, by unfold firstTruthy; rw [if_neg (by simpa using hc)]; exact hv⟩

theorem _adopt_takes_first_truthy (f : Card → Option String)
    (hf : ∀ b c, f (adoptStep b c) = if !truthy (f b) && truthy (f c) then f c else f b)
    (base : Card) (others : List Card)
    (hbase : truthy (f base) = false)
    (hex : ∃ c ∈ others, truthy (f c) = true) :
    truthy (f (_adopt base others)) = true ∧
      ∃ c ∈ others, f (_adopt base others) = f c := by
  obtain ⟨v, hv⟩ := firstTruthy_eq_some_of_exists f others hex
  have hval : f (_adopt base others) = some v := by
    rw [_adopt, foldl_adoptStep_field f hf others base, if_neg (by simp [hbase]), hv]
  obtain ⟨c, hc, hfc, htr⟩ := firstTruthy_mem f others v hv
  exact ⟨by rw [hval]; exact hfc ▸ htr, c, hc, by rw [hval, hfc]⟩

/-- C10: the interactive merge decisions adopt more scalar fields than the
spec's org/title list: for a `keep N` decision (`_adopt`) and for a `union`
decision (`_union`), whenever the chosen base lacks a display name, birthday,
uid or kind and some member carries a truthy value for it, the surviving
contact ends up with the first such member's value — in particular a merged
contact can take on the uid of a discarded duplicate. -/
theorem c10_adopt_and_union_take_scalar_fields
    (base : Card) (others : List Card) (cards : List Card) :
    (∀ f : Card → Option String,
      (f = Card.fn ∨ f = Card.bday ∨ f = Card.uid ∨ f = Card.kind) →
      truthy (f base) = false → (∃ c ∈ others, truthy (f c) = true) →
      truthy (f (_adopt base others)) = true ∧
        ∃ c ∈ others, f (_adopt base others) = f c) ∧
    (∀ f : Card → Option String,
      (f = Card.fn ∨ f = Card.bday ∨ f = Card.uid ∨ f = Card.kind) →
      truthy (f (pickBest cards)) = false → (∃ c ∈ cards, truthy (f c) = true) →
      truthy (f (_union cards)) = true ∧
        ∃ c ∈ cards, f (_union cards) = f c) := by
  have hdispatch : ∀ f : Card → Option String,
      (f = Card.fn ∨ f = Card.bday ∨ f = Card.uid ∨ f = Card.kind) →
      ∀ b c, f (adoptStep b c) = if !truthy (f b) && truthy (f c) then f c else f b := by
    rintro f (rfl | rfl | rfl | rfl)
    · exact adoptStep_fn
    · exact adoptStep_bday
    · exact adoptStep_uid
    · exact adoptStep_kind
  constructor
  · intro f hfield hbase hex
    exact _adopt_takes_first_truthy f (hdispatch f hfield) base others hbase hex
  · intro f hfield hbase hex
    have hu : _union cards = _adopt (pickBest cards) cards := rfl
    rw [hu]
    exact _adopt_takes_first_truthy f (hdispatch f hfield) (pickBest cards) cards hbase hex

/-- The base card of the C10 witness: only a display name. -/
def cardKeepBase : Card := { fn := some "Alice Example" }

/-- The duplicate of the C10 witness: it carries a uid. -/
def cardDupWithUid : Card := { uid := some "urn-1234" }

/-- C10 witness: keeping the uid-less base still takes on the duplicate's
uid. -/
theorem c10_adopt_and_union_take_scalar_fields_witness :
    truthy (Card.uid (_adopt cardKeepBase [cardDupWithUid])) = true ∧
      ∃ c ∈ [cardDupWithUid],
        Card.uid (_adopt cardKeepBase [cardDupWithUid]) = Card.uid c :=
  (c10_adopt_and_union_take_scalar_fields cardKeepBase [cardDupWithUid]
      [cardKeepBase, cardDupWithUid]).1 Card.uid
    (Or.inr (Or.inr (Or.inl rfl))) (by decide)
    ⟨cardDupWithUid, List.mem_singleton.mpr rfl, by decide⟩

/-! ### C9 — the audit log only grows -/

/-- `after` carries `before`'s audit log as an untouched prefix: entries were
only appended, never edited or removed. -/
def extendsChanges (before after : Card) : Prop :=
  ∃ t, after._changes = before._changes ++ t

theorem extendsChanges_trans {a b c : Card}
    (h1 : extendsChanges a b) (h2 : extendsChanges b c) : extendsChanges a c := by
  obtain ⟨t1, h1⟩ := h1
  obtain ⟨t2, h2⟩ := h2
  exact ⟨t1 ++ t2, by rw [h2, h1, List.append_assoc]⟩

theorem log_change_extends (c : Card) (msg : String) :
    extendsChanges c (log_change c msg) := ⟨[msg], rfl⟩

/-- Logging onto any card whose audit log equals `c`'s still only appends. -/
theorem log_change_extends_of_changes_eq {c X : Card} (h : X._changes = c._changes)
    (m : String) : extendsChanges c (log_change X m) :=
  ⟨[m], by show X._changes ++ [m] = c._changes ++ [m]; rw [h]⟩

theorem mergeLists_extends (cluster : List Card) (best : Card) :
    extendsChanges best (mergeLists cluster best) := ⟨[], by simp [mergeLists]⟩

theorem mergeOrg_extends (cluster : List Card) (best : Card) :
    extendsChanges best (mergeOrg cluster best) := by
  unfold mergeOrg
  split
  · exact ⟨[], by simp⟩
  · split
    · exact ⟨[], by simp⟩
    · exact ⟨[], by simp⟩

theorem mergeTitle_extends (cluster : List Card) (best : Card) :
    extendsChanges best (mergeTitle cluster best) := by
  unfold mergeTitle
  split
  · exact ⟨[], by simp⟩
  · split
    · exact ⟨[], by simp⟩
    · exact ⟨[], by simp⟩

theorem mergeCategories_extends (cluster : List Card) (best : Card) :
    extendsChanges best (mergeCategories cluster best) := by
  unfold mergeCategories
  dsimp only
  split
  · exact ⟨[], by simp⟩
  · split
    · exact ⟨[], by simp⟩
    · split
      · exact ⟨_, rfl⟩
      · exact ⟨_, rfl⟩

theorem mergeLog_extends (cluster : List Card) (best : Card) :
    extendsChanges best (mergeLog cluster best) := by
  unfold mergeLog
  dsimp only
  split
  · exact ⟨_, rfl⟩
  · exact ⟨[], by simp⟩

theorem merge_cluster_auto_extends (cluster : List Card) :
    extendsChanges (pickBest cluster) (merge_cluster_auto cluster) :=
  extendsChanges_trans (extendsChanges_trans (extendsChanges_trans
    (extendsChanges_trans (mergeLists_extends cluster _) (mergeOrg_extends cluster _))
    (mergeTitle_extends cluster _)) (mergeCategories_extends cluster _))
    (mergeLog_extends cluster _)

theorem restore_provenance_extends (cluster : List Card) (m : Card) :
    extendsChanges m (restore_provenance cluster m) := by
  unfold restore_provenance
  dsimp only
  split
  · split
    · exact ⟨_, rfl⟩
    · exact ⟨[], by simp⟩
  · exact ⟨[], by simp⟩

@[simp] theorem adoptStep_changes (b c : Card) :
    (adoptStep b c)._changes = b._changes := by
  simp [adoptStep]

theorem foldl_adoptStep_changes :
    ∀ (others : List Card) (base : Card),
      (others.foldl adoptStep base)._changes = base._changes := by
  intro others
  induction others with
  | nil => intro base; rfl
  | cons c rest ih => intro base; rw [List.foldl_cons, ih, adoptStep_changes]

theorem _adopt_extends (base : Card) (others : List Card) :
    extendsChanges base (_adopt base others) :=
  ⟨[], by rw [_adopt, foldl_adoptStep_changes]; simp⟩

theorem _union_extends (cards : List Card) :
    extendsChanges (pickBest cards) (_union cards) :=
  ⟨[], by rw [_union, foldl_adoptStep_changes]; simp⟩

theorem classify_card_extends (c : Card) : extendsChanges c (classify_card c) := by
  unfold classify_card
  split
  · exact ⟨[], by simp⟩
  · split
    · exact ⟨[], by simp⟩
    · dsimp only
      split
      · exact ⟨_, rfl⟩
      · split
        · exact ⟨_, rfl⟩
        · exact ⟨[], by simp⟩

theorem auto_tag_step_changes (rs : String → String → Bool)
    (st : Card × List String) (rule : String × List String) :
    ((auto_tag_step rs st rule).1)._changes = st.1._changes := by
  unfold auto_tag_step
  split
  · rfl
  · split
    · rfl
    · split
      · rfl
      · rfl

theorem foldl_auto_tag_step_changes (rs : String → String → Bool) :
    ∀ (rules : List (String × List String)) (st : Card × List String),
      ((rules.foldl (auto_tag_step rs) st).1)._changes = st.1._changes := by
  intro rules
  induction rules with
  | nil => intro st; rfl
  | cons r rest ih => intro st; rw [List.foldl_cons, ih, auto_tag_step_changes]

theorem auto_tag_card_extends (rs : String → String → Bool)
    (rules : List (String × List String)) (c : Card) :
    extendsChanges c (auto_tag_card rs rules c) := by
  unfold auto_tag_card
  split
  · exact ⟨[], by simp⟩
  · dsimp only
    split
    · exact ⟨[], by rw [foldl_auto_tag_step_changes]; simp⟩
    · exact log_change_extends_of_changes_eq
        (foldl_auto_tag_step_changes rs rules (c, [])) _

theorem normalize_phones_card_extends (parseFmt : String → String → Option String)
    (default_region : String) (infer_from_adr : Bool) (c : Card) :
    extendsChanges c (normalize_phones_card parseFmt default_region infer_from_adr c) := by
  unfold normalize_phones_card
  dsimp only
  repeat' split
  all_goals first
    | (refine ⟨[], ?_⟩; simp; done)
    | exact ⟨_, rfl⟩

theorem review_delete_card_extends (c : Card) :
    extendsChanges c (review_delete_card c) := ⟨_, rfl⟩

theorem review_assign_card_extends (chosen : List String) (c : Card) :
    extendsChanges c (review_assign_card chosen c) := by
  unfold review_assign_card
  split
  · exact ⟨[], by simp⟩
  · dsimp only
    split
    · exact ⟨[], by simp⟩
    · exact ⟨_, rfl⟩

theorem interactive_categories_card_extends (chosen : List String) (c : Card) :
    extendsChanges c (interactive_categories_card chosen c) := by
  unfold interactive_categories_card
  dsimp only
  split
  · split
    · exact ⟨[], by simp⟩
    · exact ⟨_, rfl⟩
  · split
    · exact ⟨_, rfl⟩
    · exact extendsChanges_trans (log_change_extends_of_changes_eq rfl _)
        (log_change_extends _ _)

/-- C9: every embedded pipeline operation — phone normalisation, proprietary
field handling aside (it touches only the raw record), classification,
auto-tagging, automatic merge, provenance restoration, interactive union and
adopt, and the review decisions — only appends to a contact's change log: the
input's log is always an unedited prefix of the output's. -/
theorem c9_audit_log_append_only :
    (∀ (c : Card) (msg : String), extendsChanges c (log_change c msg)) ∧
    (∀ (pf : String → String → Option String) (dr : String) (inf : Bool) (c : Card),
      extendsChanges c (normalize_phones_card pf dr inf c)) ∧
    (∀ c : Card, extendsChanges c (classify_card c)) ∧
    (∀ (rs : String → String → Bool) (rules : List (String × List String)) (c : Card),
      extendsChanges c (auto_tag_card rs rules c)) ∧
    (∀ cluster : List Card, extendsChanges (pickBest cluster) (merge_cluster_auto cluster)) ∧
    (∀ (cluster : List Card) (m : Card), extendsChanges m (restore_provenance cluster m)) ∧
    (∀ (base : Card) (others : List Card), extendsChanges base (_adopt base others)) ∧
    (∀ cards : List Card, extendsChanges (pickBest cards) (_union cards)) ∧
    (∀ c : Card, extendsChanges c (review_delete_card c)) ∧
    (∀ (chosen : List String) (c : Card), extendsChanges c (review_assign_card chosen c)) ∧
    (∀ (chosen : List String) (c : Card), extendsChanges c (interactive_categories_card chosen c)) :=
  ⟨log_change_extends, normalize_phones_card_extends, classify_card_extends,
   auto_tag_card_extends, merge_cluster_auto_extends, restore_provenance_extends,
   _adopt_extends, _union_extends, review_delete_card_extends,
   review_assign_card_extends, interactive_categories_card_extends⟩

/-- C9 witness: the append-only property, instantiated at concrete inputs. -/
theorem c9_audit_log_append_only_witness :
    extendsChanges cardEmailOnly (log_change cardEmailOnly "entry") ∧
    extendsChanges cardEmailOnly (classify_card cardEmailOnly) ∧
    extendsChanges (pickBest [cardKeepBase, cardDupWithUid])
      (merge_cluster_auto [cardKeepBase, cardDupWithUid]) ∧
    extendsChanges cardKeepBase (_adopt cardKeepBase [cardDupWithUid]) :=
  ⟨c9_audit_log_append_only.1 cardEmailOnly "entry",
   c9_audit_log_append_only.2.2.1 cardEmailOnly,
   c9_audit_log_append_only.2.2.2.2.1 [cardKeepBase, cardDupWithUid],
   c9_audit_log_append_only.2.2.2.2.2.2.1 cardKeepBase [cardDupWithUid]⟩

/-! ### Order facts about the `sorted(set(...))` model -/

theorem charListLe_total : ∀ as bs, charListLe as bs = true ∨ charListLe bs as = true := by
  intro as
  induction as with
  | nil => intro bs; exact Or.inl rfl
  | cons a as ih =>
    intro bs
    cases bs with
    | nil => exact Or.inr rfl
    | cons b bs =>
      by_cases h1 : a.toNat < b.toNat
      · left; unfold charListLe; rw [if_pos h1]
      · by_cases h2 : b.toNat < a.toNat
        · right; unfold charListLe; rw [if_pos h2]
        · rcases ih bs with h | h
          · left; unfold charListLe; rw [if_neg h1, if_neg h2]; exact h
          · right; unfold charListLe; rw [if_neg h2, if_neg h1]; exact h

theorem charListLe_trans : ∀ as bs cs, charListLe as bs = true →
    charListLe bs cs = true → charListLe as cs = true := by
  intro as
  induction as with
  | nil => intro bs cs _ _; rfl
  | cons a as ih =>
    intro bs cs hab hbc
    cases bs with
    | nil => exact absurd hab (by simp [charListLe])
    | cons b bs =>
      cases cs with
      | nil => exact absurd hbc (by simp [charListLe])
      | cons c cs =>
        unfold charListLe at hab hbc ⊢
        split_ifs at hab with h1 h2 <;> split_ifs at hbc with h3 h4 <;>
          split_ifs with h5 h6 <;>
          first
            | rfl
            | omega
            | exact ih bs cs hab hbc

theorem pyStrLe_total (a b : String) : pyStrLe a b = true ∨ pyStrLe b a = true :=
  charListLe_total a.data b.data

theorem pyStrLe_trans {a b c : String} (h1 : pyStrLe a b = true)
    (h2 : pyStrLe b c = true) : pyStrLe a c = true :=
  charListLe_trans a.data b.data c.data h1 h2

theorem mem_insertSorted (x a : String) : ∀ l, a ∈ insertSorted x l ↔ a = x ∨ a ∈ l := by
  intro l
  induction l with
  | nil => simp [insertSorted]
  | cons y ys ih =>
    unfold insertSorted
    split
    · simp [List.mem_cons]
    · simp only [List.mem_cons, ih]
      tauto

theorem insertSorted_perm (x : String) : ∀ l, (insertSorted x l).Perm (x :: l) := by
  intro l
  induction l with
  | nil => exact List.Perm.refl _
  | cons y ys ih =>
    unfold insertSorted
    split
    · exact List.Perm.refl _
    · exact (List.Perm.cons y ih).trans (List.Perm.swap x y ys)

theorem pySort_perm : ∀ l, (pySort l).Perm l := by
  intro l
  induction l with
  | nil => exact List.Perm.refl _
  | cons a l ih =>
    have h : pySort (a :: l) = insertSorted a (pySort l) := rfl
    rw [h]
    exact (insertSorted_perm a (pySort l)).trans (List.Perm.cons a ih)

theorem mem_pySort {a : String} {l : List String} : a ∈ pySort l ↔ a ∈ l :=
  (pySort_perm l).mem_iff

theorem mem_pySortedSet {a : String} {l : List String} : a ∈ pySortedSet l ↔ a ∈ l := by
  unfold pySortedSet
  rw [mem_pySort, List.mem_dedup]

theorem pySortedSet_nodup (l : List String) : (pySortedSet l).Nodup :=
  (pySort_perm l.dedup).symm.nodup (List.nodup_dedup l)

theorem insertSorted_sorted (x : String) : ∀ l,
    List.Pairwise (fun a b => pyStrLe a b = true) l →
    List.Pairwise (fun a b => pyStrLe a b = true) (insertSorted x l) := by
  intro l
  induction l with
  | nil => intro _; simp [insertSorted]
  | cons y ys ih =>
    intro h
    rw [List.pairwise_cons] at h
    obtain ⟨hy, hys⟩ := h
    unfold insertSorted
    split
    · rename_i hxy
      refine List.pairwise_cons.mpr ⟨?_, List.pairwise_cons.mpr ⟨hy, hys⟩⟩
      intro z hz
      rcases List.mem_cons.mp hz with rfl | hz'
      · exact hxy
      · exact pyStrLe_trans hxy (hy z hz')
    · rename_i hxy
      have hyx : pyStrLe y x = true := by
        rcases pyStrLe_total x y with h | h
        · exact absurd h hxy
        · exact h
      refine List.pairwise_cons.mpr ⟨?_, ih hys⟩
      intro z hz
      rcases (mem_insertSorted x z ys).mp hz with rfl | hz'
      · exact hyx
      · exact hy z hz'

theorem pySort_sorted : ∀ l, List.Pairwise (fun a b => pyStrLe a b = true) (pySort l) := by
  intro l
  induction l with
  | nil => exact List.Pairwise.nil
  | cons a l ih => exact insertSorted_sorted a (pySort l) ih

theorem pySortedSet_sorted (l : List String) :
    List.Pairwise (fun a b => pyStrLe a b = true) (pySortedSet l) :=
  pySort_sorted l.dedup

theorem pySortedSet_eq_nil_iff (l : List String) : pySortedSet l = [] ↔ l = [] := by
  constructor
  · intro h
    have hlen : l.dedup.length = 0 := by
      have := (pySort_perm l.dedup).length_eq
      rw [show pySort l.dedup = pySortedSet l from rfl, h] at this
      exact this.symm
    have hd : l.dedup = [] := List.eq_nil_of_length_eq_zero hlen
    exact (List.dedup_eq_nil l).mp hd
  · intro h
    rw [h]
    rfl

/-- Python `max` returns a member of a nonempty list. -/
theorem pickBest_mem : ∀ (cluster : List Card), cluster ≠ [] → pickBest cluster ∈ cluster := by
  have aux : ∀ (l : List Card) (b : Card),
      l.foldl (fun b x => if keyLt (richKey b) (richKey x) then x else b) b = b ∨
        l.foldl (fun b x => if keyLt (richKey b) (richKey x) then x else b) b ∈ l := by
    intro l
    induction l with
    | nil => intro b; exact Or.inl rfl
    | cons x xs ih =>
      intro b
      rw [List.foldl_cons]
      rcases ih (if keyLt (richKey b) (richKey x) then x else b) with h | h
      · rw [h]
        split
        · exact Or.inr (List.mem_cons_self x xs)
        · exact Or.inl rfl
      · exact Or.inr (List.mem_cons_of_mem x h)
  intro cluster hne
  match cluster, hne with
  | c :: rest, _ =>
    have hpb : pickBest (c :: rest) =
        rest.foldl (fun b x => if keyLt (richKey b) (richKey x) then x else b) c := rfl
    rw [hpb]
    rcases aux rest c with h | h
    · rw [h]; exact List.mem_cons_self c rest
    · exact List.mem_cons_of_mem c h

/-! ### C6 — automatic merge unions emails, phones and categories -/

@[simp] theorem log_change_emails (c : Card) (m : String) :
    (log_change c m).emails = c.emails := rfl
@[simp] theorem log_change_tels (c : Card) (m : String) :
    (log_change c m).tels = c.tels := rfl
@[simp] theorem log_change_categories (c : Card) (m : String) :
    (log_change c m).categories = c.categories := rfl
@[simp] theorem log_change_sources (c : Card) (m : String) :
    (log_change c m)._source_files = c._source_files := rfl

@[simp] theorem mergeLists_emails (cl : List Card) (b : Card) :
    (mergeLists cl b).emails = pySortedSet (cl.flatMap Card.emails) := rfl
@[simp] theorem mergeLists_tels (cl : List Card) (b : Card) :
    (mergeLists cl b).tels = pySortedSet (cl.flatMap Card.tels) := rfl
@[simp] theorem mergeLists_categories (cl : List Card) (b : Card) :
    (mergeLists cl b).categories = b.categories := rfl
@[simp] theorem mergeLists_sources (cl : List Card) (b : Card) :
    (mergeLists cl b)._source_files = b._source_files := rfl

@[simp] theorem mergeOrg_emails (cl : List Card) (b : Card) :
    (mergeOrg cl b).emails = b.emails := by
  unfold mergeOrg; repeat' split
  all_goals rfl
@[simp] theorem mergeOrg_tels (cl : List Card) (b : Card) :
    (mergeOrg cl b).tels = b.tels := by
  unfold mergeOrg; repeat' split
  all_goals rfl
@[simp] theorem mergeOrg_categories (cl : List Card) (b : Card) :
    (mergeOrg cl b).categories = b.categories := by
  unfold mergeOrg; repeat' split
  all_goals rfl
@[simp] theorem mergeOrg_sources (cl : List Card) (b : Card) :
    (mergeOrg cl b)._source_files = b._source_files := by
  unfold mergeOrg; repeat' split
  all_goals rfl

@[simp] theorem mergeTitle_emails (cl : List Card) (b : Card) :
    (mergeTitle cl b).emails = b.emails := by
  unfold mergeTitle; repeat' split
  all_goals rfl
@[simp] theorem mergeTitle_tels (cl : List Card) (b : Card) :
    (mergeTitle cl b).tels = b.tels := by
  unfold mergeTitle; repeat' split
  all_goals rfl
@[simp] theorem mergeTitle_categories (cl : List Card) (b : Card) :
    (mergeTitle cl b).categories = b.categories := by
  unfold mergeTitle; repeat' split
  all_goals rfl
@[simp] theorem mergeTitle_sources (cl : List Card) (b : Card) :
    (mergeTitle cl b)._source_files = b._source_files := by
  unfold mergeTitle; repeat' split
  all_goals rfl

@[simp] theorem mergeCategories_emails (cl : List Card) (b : Card) :
    (mergeCategories cl b).emails = b.emails := by
  unfold mergeCategories; dsimp only; repeat' split
  all_goals rfl
@[simp] theorem mergeCategories_tels (cl : List Card) (b : Card) :
    (mergeCategories cl b).tels = b.tels := by
  unfold mergeCategories; dsimp only; repeat' split
  all_goals rfl
@[simp] theorem mergeCategories_sources (cl : List Card) (b : Card) :
    (mergeCategories cl b)._source_files = b._source_files := by
  unfold mergeCategories; dsimp only; repeat' split
  all_goals rfl

@[simp] theorem mergeLog_emails (cl : List Card) (b : Card) :
    (mergeLog cl b).emails = b.emails := by
  unfold mergeLog; dsimp only; split
  all_goals rfl
@[simp] theorem mergeLog_tels (cl : List Card) (b : Card) :
    (mergeLog cl b).tels = b.tels := by
  unfold mergeLog; dsimp only; split
  all_goals rfl
@[simp] theorem mergeLog_categories (cl : List Card) (b : Card) :
    (mergeLog cl b).categories = b.categories := by
  unfold mergeLog; dsimp only; split
  all_goals rfl
@[simp] theorem mergeLog_sources (cl : List Card) (b : Card) :
    (mergeLog cl b)._source_files = b._source_files := by
  unfold mergeLog; dsimp only; split
  all_goals rfl

theorem merge_cluster_auto_emails (cluster : List Card) :
    (merge_cluster_auto cluster).emails = pySortedSet (cluster.flatMap Card.emails) := by
  simp [merge_cluster_auto]

theorem merge_cluster_auto_tels (cluster : List Card) :
    (merge_cluster_auto cluster).tels = pySortedSet (cluster.flatMap Card.tels) := by
  simp [merge_cluster_auto]

theorem merge_cluster_auto_sources (cluster : List Card) :
    (merge_cluster_auto cluster)._source_files = (pickBest cluster)._source_files := by
  simp [merge_cluster_auto]

/-- Membership in the category union computed by `_merge_categories`. -/
theorem mem_merge_categories (cl : List Card) (x : String) :
    x ∈ (_merge_categories cl).1 ↔ ∃ c ∈ cl, x ∈ c.categories := by
  unfold _merge_categories
  dsimp only
  split
  · rename_i heq
    constructor
    · intro hx
      exact absurd hx (List.not_mem_nil x)
    · rintro ⟨c, hc, hx⟩
      exfalso
      have hmem : c.categories ∈ (cl.map Card.categories).filter (fun l => !l.isEmpty) := by
        refine List.mem_filter.mpr ⟨List.mem_map_of_mem Card.categories hc, ?_⟩
        simp [List.isEmpty_iff]
        exact List.ne_nil_of_mem hx
      rw [heq] at hmem
      exact List.not_mem_nil _ hmem
  · rename_i s heq
    rw [mem_pySortedSet]
    constructor
    · intro hx
      have hs : s ∈ (cl.map Card.categories).filter (fun l => !l.isEmpty) := by
        rw [heq]; exact List.mem_singleton.mpr rfl
      obtain ⟨c, hc, hcs⟩ := List.mem_map.mp (List.mem_filter.mp hs).1
      exact ⟨c, hc, hcs ▸ hx⟩
    · rintro ⟨c, hc, hx⟩
      have hmem : c.categories ∈ (cl.map Card.categories).filter (fun l => !l.isEmpty) := by
        refine List.mem_filter.mpr ⟨List.mem_map_of_mem Card.categories hc, ?_⟩
        simp [List.isEmpty_iff]
        exact List.ne_nil_of_mem hx
      rw [heq] at hmem
      rw [List.mem_singleton.mp hmem] at hx
      exact hx
  · rename_i s rest heq
    rw [mem_pySortedSet]
    rw [List.mem_flatten]
    constructor
    · rintro ⟨t, ht, hx⟩
      have hmem : t ∈ (cl.map Card.categories).filter (fun l => !l.isEmpty) := by
        rw [heq]; exact ht
      obtain ⟨c, hc, hct⟩ := List.mem_map.mp (List.mem_filter.mp hmem).1
      exact ⟨c, hc, hct ▸ hx⟩
    · rintro ⟨c, hc, hx⟩
      refine ⟨c.categories, ?_, hx⟩
      rw [← heq]
      refine List.mem_filter.mpr ⟨List.mem_map_of_mem Card.categories hc, ?_⟩
      simp [List.isEmpty_iff]
      exact List.ne_nil_of_mem hx

/-- The categories of the merged card distribute over the base's and the
cluster union's. -/
theorem mergeCategories_categories (cl : List Card) (b : Card) (x : String) :
    x ∈ (mergeCategories cl b).categories ↔
      x ∈ b.categories ∨ x ∈ (_merge_categories cl).1 := by
  unfold mergeCategories
  dsimp only
  split
  · rename_i h
    have hnil : (_merge_categories cl).1 = [] := by
      simpa [List.isEmpty_iff] using h
    simp [hnil]
  · repeat' split
    all_goals simp [mem_pySortedSet, List.mem_append]

/-- If `_merge_categories` returns an empty union, no member has categories. -/
theorem merge_categories_nil (cl : List Card) (h : (_merge_categories cl).1 = []) :
    ∀ c ∈ cl, c.categories = [] := by
  intro c hc
  cases hcc : c.categories with
  | nil => rfl
  | cons a as =>
    exfalso
    have hmem : a ∈ (_merge_categories cl).1 :=
      (mem_merge_categories cl a).mpr ⟨c, hc, by rw [hcc]; exact List.mem_cons_self a as⟩
    rw [h] at hmem
    exact List.not_mem_nil a hmem

/-- The merged card's categories, in full. -/
theorem merge_cluster_auto_categories_mem (cluster : List Card) (hne : cluster ≠ [])
    (x : String) :
    x ∈ (merge_cluster_auto cluster).categories ↔ ∃ c ∈ cluster, x ∈ c.categories := by
  have hred : (merge_cluster_auto cluster).categories =
      (mergeCategories cluster (mergeTitle cluster (mergeOrg cluster
        (mergeLists cluster (pickBest cluster))))).categories := by
    simp [merge_cluster_auto]
  rw [hred, mergeCategories_categories]
  have hb : (mergeTitle cluster (mergeOrg cluster (mergeLists cluster
      (pickBest cluster)))).categories = (pickBest cluster).categories := by simp
  rw [hb, mem_merge_categories]
  constructor
  · rintro (h | h)
    · exact ⟨pickBest cluster, pickBest_mem cluster hne, h⟩
    · exact h
  · intro h
    exact Or.inr h

/-- C6: for every nonempty cluster the automatically merged contact carries
exactly the union of the members' emails, the union of their phones and the
union of their categories; the email and phone lists are sorted and
deduplicated, and so is the category list whenever any member had
categories. -/
theorem c6_merge_union_lossless (cluster : List Card) (hne : cluster ≠ []) :
    (∀ x, x ∈ (merge_cluster_auto cluster).emails ↔ ∃ c ∈ cluster, x ∈ c.emails) ∧
    (∀ x, x ∈ (merge_cluster_auto cluster).tels ↔ ∃ c ∈ cluster, x ∈ c.tels) ∧
    (∀ x, x ∈ (merge_cluster_auto cluster).categories ↔ ∃ c ∈ cluster, x ∈ c.categories) ∧
    List.Pairwise (fun a b => pyStrLe a b = true) (merge_cluster_auto cluster).emails ∧
    (merge_cluster_auto cluster).emails.Nodup ∧
    List.Pairwise (fun a b => pyStrLe a b = true) (merge_cluster_auto cluster).tels ∧
    (merge_cluster_auto cluster).tels.Nodup ∧
    List.Pairwise (fun a b => pyStrLe a b = true) (merge_cluster_auto cluster).categories ∧
    (merge_cluster_auto cluster).categories.Nodup := by
  have hcats : (merge_cluster_auto cluster).categories =
      (mergeCategories cluster (mergeTitle cluster (mergeOrg cluster
        (mergeLists cluster (pickBest cluster))))).categories := by
    simp [merge_cluster_auto]
  have hcat_shape :
      List.Pairwise (fun a b => pyStrLe a b = true) (merge_cluster_auto cluster).categories ∧
        (merge_cluster_auto cluster).categories.Nodup := by
    rw [hcats]
    unfold mergeCategories
    dsimp only
    split
    · rename_i h
      have hnil : (_merge_categories cluster).1 = [] := by
        simpa [List.isEmpty_iff] using h
      have hall := merge_categories_nil cluster hnil
      have hpb : (mergeTitle cluster (mergeOrg cluster (mergeLists cluster
          (pickBest cluster)))).categories = (pickBest cluster).categories := by simp
      rw [hpb, hall (pickBest cluster) (pickBest_mem cluster hne)]
      exact ⟨List.Pairwise.nil, List.nodup_nil⟩
    · repeat' split
      all_goals
        simp only [log_change_categories]
        exact ⟨pySortedSet_sorted _, pySortedSet_nodup _⟩
  refine ⟨?_, ?_, merge_cluster_auto_categories_mem cluster hne, ?_, ?_, ?_, ?_,
    hcat_shape.1, hcat_shape.2⟩
  · intro x
    rw [merge_cluster_auto_emails, mem_pySortedSet, List.mem_flatMap]
  · intro x
    rw [merge_cluster_auto_tels, mem_pySortedSet, List.mem_flatMap]
  · rw [merge_cluster_auto_emails]; exact pySortedSet_sorted _
  · rw [merge_cluster_auto_emails]; exact pySortedSet_nodup _
  · rw [merge_cluster_auto_tels]; exact pySortedSet_sorted _
  · rw [merge_cluster_auto_tels]; exact pySortedSet_nodup _

/-- C6 witness: the losslessness theorem at a concrete two-card cluster. -/
theorem c6_merge_union_lossless_witness :
    (∀ x, x ∈ (merge_cluster_auto [cardEmailTelA, cardEmailTelB]).emails ↔
      ∃ c ∈ [cardEmailTelA, cardEmailTelB], x ∈ c.emails) ∧
    (∀ x, x ∈ (merge_cluster_auto [cardEmailTelA, cardEmailTelB]).tels ↔
      ∃ c ∈ [cardEmailTelA, cardEmailTelB], x ∈ c.tels) ∧
    (∀ x, x ∈ (merge_cluster_auto [cardEmailTelA, cardEmailTelB]).categories ↔
      ∃ c ∈ [cardEmailTelA, cardEmailTelB], x ∈ c.categories) ∧
    List.Pairwise (fun a b => pyStrLe a b = true)
      (merge_cluster_auto [cardEmailTelA, cardEmailTelB]).emails ∧
    (merge_cluster_auto [cardEmailTelA, cardEmailTelB]).emails.Nodup ∧
    List.Pairwise (fun a b => pyStrLe a b = true)
      (merge_cluster_auto [cardEmailTelA, cardEmailTelB]).tels ∧
    (merge_cluster_auto [cardEmailTelA, cardEmailTelB]).tels.Nodup ∧
    List.Pairwise (fun a b => pyStrLe a b = true)
      (merge_cluster_auto [cardEmailTelA, cardEmailTelB]).categories ∧
    (merge_cluster_auto [cardEmailTelA, cardEmailTelB]).categories.Nodup :=
  c6_merge_union_lossless [cardEmailTelA, cardEmailTelB] (by simp)

/-! ### C2 — provenance after a merge -/

theorem one_lt_length_of_two_mem {l : List String} {x y : String}
    (hx : x ∈ l) (hy : y ∈ l) (hxy : x ≠ y) : 1 < l.length := by
  match l with
  | [] => exact absurd hx (List.not_mem_nil x)
  | [a] =>
    rw [List.mem_singleton] at hx hy
    exact absurd (hx.trans hy.symm) hxy
  | a :: b :: t => simp

/-- When a card shares an email or phone with the cluster, the restoration
body really does install the union of the sources and log the multi-source
entry. -/
theorem restore_provenance_fires (cluster : List Card) (m : Card)
    (hcond : restoreMatches cluster m = true) :
    (restore_provenance cluster m)._source_files =
      pySortedSet (cluster.flatMap Card._source_files) ∧
    (1 < (pySortedSet (cluster.flatMap Card._source_files)).length →
      ("Merged from sources: " ++
        String.intercalate ", " (pySortedSet (cluster.flatMap Card._source_files))) ∈
        (restore_provenance cluster m)._changes) := by
  unfold restore_provenance
  rw [if_pos hcond]
  dsimp only
  constructor
  · split
    · rfl
    · rfl
  · intro hlen
    rw [if_pos hlen]
    exact List.mem_append_right _ (List.mem_singleton.mpr rfl)

/-- The scan stops at the first matching card: cards before it are kept, the
match is restored, cards after it are never examined. -/
theorem restoreScan_first_match (cluster : List Card) :
    ∀ (pre : List Card) (m : Card) (post : List Card),
      (∀ p ∈ pre, restoreMatches cluster p = false) →
      restoreMatches cluster m = true →
      restoreScan cluster (pre ++ m :: post) =
        pre ++ restore_provenance cluster m :: post := by
  intro pre
  induction pre with
  | nil =>
    intro m post _ hm
    rw [List.nil_append, List.nil_append]
    unfold restoreScan
    rw [if_pos hm]
  | cons p pre ih =>
    intro m post hpre hm
    rw [List.cons_append, List.cons_append]
    unfold restoreScan
    rw [if_neg (by
      rw [hpre p (List.mem_cons_self p pre)]
      exact Bool.false_ne_true)]
    rw [ih m post (fun q hq => hpre q (List.mem_cons_of_mem p hq)) hm]

/-- The automatically merged survivor of a cluster with at least one contact
point passes the scan's test. -/
theorem merged_card_matches (cluster : List Card)
    (hcp : ∃ c ∈ cluster, c.emails ≠ [] ∨ c.tels ≠ []) :
    restoreMatches cluster (merge_cluster_auto cluster) = true := by
  unfold restoreMatches
  dsimp only
  obtain ⟨c, hc, hct⟩ := hcp
  rcases hct with hE | hT
  · obtain ⟨e, he⟩ := List.exists_mem_of_ne_nil c.emails hE
    have hm : e ∈ (merge_cluster_auto cluster).emails := by
      rw [merge_cluster_auto_emails, mem_pySortedSet, List.mem_flatMap]
      exact ⟨c, hc, he⟩
    have hcl : e ∈ cluster.flatMap Card.emails := List.mem_flatMap.mpr ⟨c, hc, he⟩
    refine Bool.or_eq_true _ _ |>.mpr (Or.inl ?_)
    exact List.any_eq_true.mpr ⟨e, hm, by simp [hcl]⟩
  · obtain ⟨t, ht⟩ := List.exists_mem_of_ne_nil c.tels hT
    have hm : t ∈ (merge_cluster_auto cluster).tels := by
      rw [merge_cluster_auto_tels, mem_pySortedSet, List.mem_flatMap]
      exact ⟨c, hc, ht⟩
    have hcl : t ∈ cluster.flatMap Card.tels := List.mem_flatMap.mpr ⟨c, hc, ht⟩
    refine Bool.or_eq_true _ _ |>.mpr (Or.inr ?_)
    exact List.any_eq_true.mpr ⟨t, hm, by simp [hcl]⟩

/-- C2 amended: the pipeline's restoration scan updates the FIRST card of the
merged list that shares an email or phone with the cluster.  Provided (i)
some cluster member carries an email or a phone, and (ii) no card before the
survivor in the merged list shares an email or phone with the cluster, the
scan restores exactly the survivor: its provenance becomes a superset of the
union of all members' provenance, and when two members carry distinct
sources the explicit "Merged from sources" entry is logged.  Without (i) the
survivor is never matched (a cluster merged purely on uid equality), and
without (ii) the restoration is absorbed by the earlier matching card — both
failure modes are exhibited in the counterexample. -/
theorem c2_provenance_superset_amended (cluster : List Card)
    (pre post : List Card)
    (hcp : ∃ c ∈ cluster, c.emails ≠ [] ∨ c.tels ≠ [])
    (hpre : ∀ p ∈ pre, restoreMatches cluster p = false) :
    restoreScan cluster (pre ++ merge_cluster_auto cluster :: post) =
      pre ++ restore_provenance cluster (merge_cluster_auto cluster) :: post ∧
    (∀ c ∈ cluster, ∀ s ∈ c._source_files,
      s ∈ (restore_provenance cluster (merge_cluster_auto cluster))._source_files) ∧
    ((∃ c1 ∈ cluster, ∃ c2 ∈ cluster, ∃ s1 ∈ c1._source_files, ∃ s2 ∈ c2._source_files,
        s1 ≠ s2) →
      ("Merged from sources: " ++
        String.intercalate ", " (pySortedSet (cluster.flatMap Card._source_files))) ∈
        (restore_provenance cluster (merge_cluster_auto cluster))._changes) := by
  have hcond := merged_card_matches cluster hcp
  obtain ⟨hsrc, hlog⟩ := restore_provenance_fires cluster (merge_cluster_auto cluster) hcond
  refine ⟨restoreScan_first_match cluster pre _ post hpre hcond, ?_, ?_⟩
  · intro c hc s hs
    rw [hsrc, mem_pySortedSet, List.mem_flatMap]
    exact ⟨c, hc, hs⟩
  · rintro ⟨c1, hc1, c2, hc2, s1, hs1, s2, hs2, hss⟩
    refine hlog ?_
    have h1 : s1 ∈ pySortedSet (cluster.flatMap Card._source_files) := by
      rw [mem_pySortedSet, List.mem_flatMap]; exact ⟨c1, hc1, hs1⟩
    have h2 : s2 ∈ pySortedSet (cluster.flatMap Card._source_files) := by
      rw [mem_pySortedSet, List.mem_flatMap]; exact ⟨c2, hc2, hs2⟩
    exact one_lt_length_of_two_mem h1 h2 hss

/-- A canonical contact from source a.vcf. -/
def cardSrcA : Card := { emails := ["pat@example.com"], _source_files := ["a.vcf"] }

/-- A canonical duplicate from source b.vcf. -/
def cardSrcB : Card := { emails := ["pat@example.com"], _source_files := ["b.vcf"] }

/-- C2 witness: the amended provenance theorem for a merged list holding only
the survivor of a concrete cross-source email duplicate pair. -/
theorem c2_provenance_superset_amended_witness :
    restoreScan [cardSrcA, cardSrcB]
        ([] ++ merge_cluster_auto [cardSrcA, cardSrcB] :: []) =
      [] ++ restore_provenance [cardSrcA, cardSrcB]
        (merge_cluster_auto [cardSrcA, cardSrcB]) :: [] ∧
    (∀ c ∈ [cardSrcA, cardSrcB], ∀ s ∈ c._source_files,
      s ∈ (restore_provenance [cardSrcA, cardSrcB]
        (merge_cluster_auto [cardSrcA, cardSrcB]))._source_files) ∧
    ((∃ c1 ∈ [cardSrcA, cardSrcB], ∃ c2 ∈ [cardSrcA, cardSrcB],
        ∃ s1 ∈ c1._source_files, ∃ s2 ∈ c2._source_files, s1 ≠ s2) →
      ("Merged from sources: " ++
        String.intercalate ", "
          (pySortedSet ([cardSrcA, cardSrcB].flatMap Card._source_files))) ∈
        (restore_provenance [cardSrcA, cardSrcB]
          (merge_cluster_auto [cardSrcA, cardSrcB]))._changes) :=
  c2_provenance_superset_amended [cardSrcA, cardSrcB] [] []
    ⟨cardSrcA, List.mem_cons_self _ _, Or.inl (by decide)⟩
    (fun p hp => absurd hp (List.not_mem_nil p))

/-- The first of two uid-matched contacts with no emails and no phones. -/
def cardUidSourceA : Card := { uid := some "shared-uid", _source_files := ["a.vcf"] }

/-- The second, from a different source file. -/
def cardUidSourceB : Card := { uid := some "shared-uid", _source_files := ["b.vcf"] }

/-- A singleton contact that shares an email with the next cluster. -/
def cardAcmeInfo : Card :=
  { emails := ["info@acme.com"], _source_files := ["a.vcf"] }

/-- A phone-only member of the duplicate cluster, from source b.vcf. -/
def cardSamSmith : Card :=
  { fn := some "Sam Smith", tels := ["07980220220"], _source_files := ["b.vcf"] }

/-- The richer member of the duplicate cluster, from source c.vcf. -/
def cardSamSmyth : Card :=
  { fn := some "Sam Smyth", emails := ["info@acme.com"],
    tels := ["+447980220220"], _source_files := ["c.vcf"] }

/-- C2 counterexample, both failure modes of the source.

Mode 1: two contacts clustering purely on uid equality (no emails, no
phones) form a genuine duplicate cluster, but the restoration scan matches
nothing, so the survivor keeps only the base's source file and "b.vcf" is
lost.

Mode 2: the clusters are [[cardAcmeInfo], [cardSamSmith, cardSamSmyth]], and
the cluster members do carry contact points, yet the scan over the merged
list matches the earlier singleton cardAcmeInfo first (it shares the email
of a non-seed member), overwrites THAT card's provenance with the cluster's
sources and breaks: the survivor still loses "b.vcf", and the singleton's
own provenance "a.vcf" is destroyed as well. -/
theorem c2_counterexample_provenance_not_restored :
    (find_duplicate_clusters (fun a b => similarity (fun _ _ => 0) a b)
      [cardUidSourceA, cardUidSourceB] = [[cardUidSourceA, cardUidSourceB]] ∧
    restore_provenance_all [[cardUidSourceA, cardUidSourceB]]
        [merge_cluster_auto [cardUidSourceA, cardUidSourceB]] =
      [merge_cluster_auto [cardUidSourceA, cardUidSourceB]] ∧
    "b.vcf" ∈ cardUidSourceB._source_files ∧
    (merge_cluster_auto [cardUidSourceA, cardUidSourceB])._source_files = ["a.vcf"] ∧
    "b.vcf" ∉ (merge_cluster_auto [cardUidSourceA, cardUidSourceB])._source_files) ∧
    (find_duplicate_clusters (fun a b => similarity (fun _ _ => 80) a b)
      [cardAcmeInfo, cardSamSmith, cardSamSmyth] =
      [[cardAcmeInfo], [cardSamSmith, cardSamSmyth]] ∧
    (∃ c ∈ [cardSamSmith, cardSamSmyth], c.emails ≠ [] ∨ c.tels ≠ []) ∧
    (restore_provenance_all [[cardSamSmith, cardSamSmyth]]
        [cardAcmeInfo, merge_cluster_auto [cardSamSmith, cardSamSmyth]]).getD 1 default =
      merge_cluster_auto [cardSamSmith, cardSamSmyth] ∧
    "b.vcf" ∈ cardSamSmith._source_files ∧
    "b.vcf" ∉ (merge_cluster_auto [cardSamSmith, cardSamSmyth])._source_files ∧
    ((restore_provenance_all [[cardSamSmith, cardSamSmyth]]
        [cardAcmeInfo, merge_cluster_auto [cardSamSmith, cardSamSmyth]]).getD 0
          default)._source_files = ["b.vcf", "c.vcf"] ∧
    "a.vcf" ∈ cardAcmeInfo._source_files) := by
  constructor
  · have hu : uidMatch cardUidSourceA cardUidSourceB = true := by decide
    have hsim : similarity (fun _ _ => 0) cardUidSourceA cardUidSourceB = 100 := by
      simp [similarity, hu]
    refine ⟨?_, by decide, by decide, by decide, by decide⟩
    have h70 : (70 : ℚ) ≤ similarity (fun _ _ => 0) cardUidSourceA cardUidSourceB := by
      rw [hsim]; norm_num
    simp only [find_duplicate_clusters]
    rw [show List.range (List.length [cardUidSourceA, cardUidSourceB]) = [0, 1] from rfl]
    rw [List.foldl_cons, List.foldl_cons, List.foldl_nil]
    simp [outerStep, innerStep, h70, List.range_succ]
  · have huDS : uidMatch cardAcmeInfo cardSamSmith = false := by decide
    have huDM : uidMatch cardAcmeInfo cardSamSmyth = false := by decide
    have huSM : uidMatch cardSamSmith cardSamSmyth = false := by decide
    have heDS : emailsIntersect cardAcmeInfo cardSamSmith = false := by decide
    have heDM : emailsIntersect cardAcmeInfo cardSamSmyth = true := by decide
    have heSM : emailsIntersect cardSamSmith cardSamSmyth = false := by decide
    have htDS : telKeysIntersect cardAcmeInfo cardSamSmith = false := by decide
    have htDM : telKeysIntersect cardAcmeInfo cardSamSmyth = false := by decide
    have htSM : telKeysIntersect cardSamSmith cardSamSmyth = true := by decide
    have hnDS : (truthy cardAcmeInfo.fn && truthy cardSamSmith.fn) = false := by decide
    have hnDM : (truthy cardAcmeInfo.fn && truthy cardSamSmyth.fn) = false := by decide
    have hnSM : (truthy cardSamSmith.fn && truthy cardSamSmyth.fn) = true := by decide
    have hoDS : (truthy cardAcmeInfo.org && truthy cardSamSmith.org &&
        (pyLower (cardAcmeInfo.org.getD "") == pyLower (cardSamSmith.org.getD ""))) = false := by
      decide
    have hoDM : (truthy cardAcmeInfo.org && truthy cardSamSmyth.org &&
        (pyLower (cardAcmeInfo.org.getD "") == pyLower (cardSamSmyth.org.getD ""))) = false := by
      decide
    have hoSM : (truthy cardSamSmith.org && truthy cardSamSmyth.org &&
        (pyLower (cardSamSmith.org.getD "") == pyLower (cardSamSmyth.org.getD ""))) = false := by
      decide
    have hsimDS : similarity (fun _ _ => 80) cardAcmeInfo cardSamSmith = 0 := by
      simp only [similarity, heuristicScore, emailScore, telScore, nameScore, orgScore,
        huDS, heDS, htDS, hnDS, hoDS]
      norm_num
    have hsimDM : similarity (fun _ _ => 80) cardAcmeInfo cardSamSmyth = 60 := by
      simp only [similarity, heuristicScore, emailScore, telScore, nameScore, orgScore,
        huDM, heDM, htDM, hnDM, hoDM]
      norm_num
    have hsimSM : similarity (fun _ _ => 80) cardSamSmith cardSamSmyth = 72 := by
      simp only [similarity, heuristicScore, emailScore, telScore, nameScore, orgScore,
        huSM, heSM, htSM, hnSM, hoSM]
      norm_num
    have hltDS : ¬ ((70 : ℚ) ≤ similarity (fun _ _ => 80) cardAcmeInfo cardSamSmith) := by
      rw [hsimDS]; norm_num
    have hltDM : ¬ ((70 : ℚ) ≤ similarity (fun _ _ => 80) cardAcmeInfo cardSamSmyth) := by
      rw [hsimDM]; norm_num
    have hgeSM : (70 : ℚ) ≤ similarity (fun _ _ => 80) cardSamSmith cardSamSmyth := by
      rw [hsimSM]; norm_num
    refine ⟨?_, ⟨cardSamSmith, List.mem_cons_self _ _, Or.inr (by decide)⟩,
      by decide, by decide, by decide, by decide, by decide⟩
    simp only [find_duplicate_clusters]
    rw [show List.range (List.length [cardAcmeInfo, cardSamSmith, cardSamSmyth]) =
      [0, 1, 2] from rfl]
    rw [List.foldl_cons, List.foldl_cons, List.foldl_cons, List.foldl_nil]
    simp [outerStep, innerStep, hltDS, hltDM, hgeSM, List.range_succ]

/-! ### C5 — the clustering loop refines the greedy specification -/

theorem range'_drop : ∀ (k s m : Nat),
    (List.range' s m).drop k = List.range' (s + k) (m - k) := by
  intro k
  induction k with
  | zero => intro s m; simp
  | succ k ih =>
    intro s m
    cases m with
    | zero => simp
    | succ m =>
      rw [List.range'_succ, List.drop_succ_cons, ih (s + 1) m]
      have h1 : s + 1 + k = s + (k + 1) := by omega
      have h2 : m - k = m + 1 - (k + 1) := by omega
      rw [h1, h2]

/-- The inner scan of `find_duplicate_clusters`: starting from visited `V`
and cluster `cl`, it appends exactly the not-yet-visited indices scoring at
least 70 against the seed, and marks them visited. -/
theorem inner_foldl_spec (sim : Card → Card → ℚ) (cards : List Card) (c : Card) :
    ∀ (js : List Nat) (V : List Nat) (cl : List Card), js.Nodup →
      js.foldl (innerStep sim cards c) (V, cl) =
        ((js.filter (fun j => !V.contains j &&
            decide (70 ≤ sim c (cards.getD j default)))).reverse ++ V,
         cl ++ (js.filter (fun j => !V.contains j &&
            decide (70 ≤ sim c (cards.getD j default)))).map
              (fun j => cards.getD j default)) := by
  intro js
  induction js with
  | nil => intro V cl _; simp
  | cons j js ih =>
    intro V cl hnd
    rw [List.nodup_cons] at hnd
    obtain ⟨hj, hnd⟩ := hnd
    rw [List.foldl_cons]
    by_cases hV : V.contains j = true
    · have hstep : innerStep sim cards c (V, cl) j = (V, cl) := by
        unfold innerStep; rw [if_pos hV]
      have hF : (!V.contains j &&
          decide (70 ≤ sim c (cards.getD j default))) = false := by
        rw [hV]; rfl
      rw [hstep, ih V cl hnd, List.filter_cons, hF]
      simp
    · have hVb : V.contains j = false := by
        cases h : V.contains j
        · rfl
        · exact absurd h hV
      by_cases hsim : (70 : ℚ) ≤ sim c (cards.getD j default)
      · have hstep : innerStep sim cards c (V, cl) j =
            (j :: V, cl ++ [cards.getD j default]) := by
          unfold innerStep; rw [if_neg hV, if_pos hsim]
        have hcongr : js.filter (fun x => !(j :: V).contains x &&
            decide (70 ≤ sim c (cards.getD x default))) =
            js.filter (fun x => !V.contains x &&
            decide (70 ≤ sim c (cards.getD x default))) := by
          apply List.filter_congr
          intro x hx
          have hxj : x ≠ j := fun h => hj (h ▸ hx)
          simp [List.contains_cons, hxj]
        have hF : (!V.contains j &&
            decide (70 ≤ sim c (cards.getD j default))) = true := by
          rw [hVb]
          simp only [Bool.not_false, Bool.true_and, decide_eq_true_eq]
          exact hsim
        rw [hstep, ih (j :: V) (cl ++ [cards.getD j default]) hnd, hcongr,
          List.filter_cons, hF]
        simp
      · have hstep : innerStep sim cards c (V, cl) j = (V, cl) := by
          unfold innerStep; rw [if_neg hV, if_neg hsim]
        have hF : (!V.contains j &&
            decide (70 ≤ sim c (cards.getD j default))) = false := by
          rw [hVb]
          simp only [Bool.not_false, Bool.true_and, decide_eq_false_iff_not]
          exact hsim
        rw [hstep, ih V cl hnd, List.filter_cons, hF]
        simp

/-- The outer loop of `find_duplicate_clusters`: folding over the index range
from `i` with visited set `V` appends exactly the clusters the greedy
specification computes on the remaining unvisited cards. -/
theorem outer_foldl_spec (sim : Card → Card → ℚ) (cards : List Card) :
    ∀ (m i : Nat), i + m = cards.length →
      ∀ (V : List Nat) (Cs : List (List Card)),
        ((List.range' i m).foldl (outerStep sim cards) (V, Cs)).2 =
          Cs ++ greedy_clusters sim (((List.range' i m).filter
            (fun j => !V.contains j)).map (fun j => cards.getD j default)) := by
  intro m
  induction m with
  | zero =>
    intro i hi V Cs
    simp [greedy_clusters]
  | succ m ih =>
    intro i hi V Cs
    rw [List.range'_succ, List.foldl_cons]
    by_cases hV : V.contains i = true
    · have hstep : outerStep sim cards (V, Cs) i = (V, Cs) := by
        unfold outerStep; rw [if_pos hV]
      have hF : (!V.contains i) = false := by rw [hV]; rfl
      rw [hstep, ih (i + 1) (by omega) V Cs, List.filter_cons, hF]
      simp
    · have hVb : V.contains i = false := by
        cases h : V.contains i
        · rfl
        · exact absurd h hV
      have hjs : (List.range cards.length).drop (i + 1) = List.range' (i + 1) m := by
        rw [List.range_eq_range', range'_drop]
        have h0 : 0 + (i + 1) = i + 1 := by omega
        have h1 : cards.length - (i + 1) = m := by omega
        rw [h0, h1]
      have hnd : (List.range' (i + 1) m).Nodup := List.nodup_range' _ _
      have hne_i : ∀ j ∈ List.range' (i + 1) m, j ≠ i := by
        intro j hjm
        have := (List.mem_range'_1.mp hjm).1
        omega
      -- the seed and the matched set
      set c := cards.getD i default with hc
      set M := (List.range' (i + 1) m).filter
        (fun j => !V.contains j && decide (70 ≤ sim c (cards.getD j default))) with hM
      have hstep : outerStep sim cards (V, Cs) i =
          (M.reverse ++ i :: V, Cs ++ [c :: M.map (fun j => cards.getD j default)]) := by
        unfold outerStep
        rw [if_neg hV]
        dsimp only
        rw [hjs, inner_foldl_spec sim cards c _ _ _ hnd]
        have hcongr : (List.range' (i + 1) m).filter
            (fun j => !(i :: V).contains j && decide (70 ≤ sim c (cards.getD j default))) = M := by
          rw [hM]
          apply List.filter_congr
          intro x hx
          simp [List.contains_cons, hne_i x hx]
        rw [hcongr]
        rfl
      rw [hstep, ih (i + 1) (by omega) (M.reverse ++ i :: V)
        (Cs ++ [c :: M.map (fun j => cards.getD j default)])]
      -- right-hand side: the greedy step on the unvisited remainder
      have hFi : (!V.contains i) = true := by rw [hVb]; rfl
      rw [List.filter_cons, hFi]
      simp only [if_true]
      rw [List.map_cons]
      have hgreedy : greedy_clusters sim (c :: ((List.range' (i + 1) m).filter
          (fun j => !V.contains j)).map (fun j => cards.getD j default)) =
          (c :: (((List.range' (i + 1) m).filter (fun j => !V.contains j)).map
            (fun j => cards.getD j default)).filter (fun d => decide (70 ≤ sim c d))) ::
          greedy_clusters sim ((((List.range' (i + 1) m).filter
            (fun j => !V.contains j)).map (fun j => cards.getD j default)).filter
              (fun d => !decide (70 ≤ sim c d))) := by
        rw [greedy_clusters]
      rw [hgreedy]
      -- the matched cards agree
      have hmatch : (((List.range' (i + 1) m).filter (fun j => !V.contains j)).map
          (fun j => cards.getD j default)).filter (fun d => decide (70 ≤ sim c d)) =
          M.map (fun j => cards.getD j default) := by
        rw [List.filter_map, List.filter_filter, hM]
        have : (List.range' (i + 1) m).filter
            (fun a => ((fun d => decide (70 ≤ sim c d)) ∘ fun j => cards.getD j default) a &&
              !V.contains a) =
            (List.range' (i + 1) m).filter
            (fun j => !V.contains j && decide (70 ≤ sim c (cards.getD j default))) := by
          apply List.filter_congr
          intro x _
          exact Bool.and_comm _ _
        rw [this]
      -- the unvisited remainder for the recursion agrees
      have hrest : (List.range' (i + 1) m).filter
          (fun j => !(M.reverse ++ i :: V).contains j) =
          (List.range' (i + 1) m).filter
          (fun j => !V.contains j && !decide (70 ≤ sim c (cards.getD j default))) := by
        apply List.filter_congr
        intro j hjm
        have hji : j ≠ i := hne_i j hjm
        by_cases hVj : j ∈ V
        · have h1 : (M.reverse ++ i :: V).contains j = true := by
            simp [List.mem_append, hVj]
          have h2 : V.contains j = true := by simp [hVj]
          rw [h1, h2]
          rfl
        · have h2 : V.contains j = false := by simp [hVj]
          by_cases hs : (70 : ℚ) ≤ sim c (cards.getD j default)
          · have hjM : j ∈ M := by
              rw [hM, List.mem_filter]
              refine ⟨hjm, ?_⟩
              rw [h2]
              simp only [Bool.not_false, Bool.true_and, decide_eq_true_eq]
              exact hs
            have h1 : (M.reverse ++ i :: V).contains j = true := by
              simp [List.mem_append, List.mem_reverse, hjM]
            rw [h1, h2]
            simp only [Bool.not_true, Bool.not_false, Bool.true_and]
            rw [decide_eq_true hs]
            rfl
          · have hjM : j ∉ M := by
              rw [hM, List.mem_filter]
              rintro ⟨-, hcond⟩
              rw [h2] at hcond
              simp only [Bool.not_false, Bool.true_and, decide_eq_true_eq] at hcond
              exact hs hcond
            have h1 : (M.reverse ++ i :: V).contains j = false := by
              simp [List.mem_append, List.mem_reverse, List.mem_cons]
              exact ⟨hjM, hji, hVj⟩
            rw [h1, h2]
            simp only [Bool.not_false, Bool.true_and]
            rw [decide_eq_false hs]
            rfl
      have hrest2 : (((List.range' (i + 1) m).filter (fun j => !V.contains j)).map
          (fun j => cards.getD j default)).filter (fun d => !decide (70 ≤ sim c d)) =
          ((List.range' (i + 1) m).filter
            (fun j => !(M.reverse ++ i :: V).contains j)).map
              (fun j => cards.getD j default) := by
        rw [hrest, List.filter_map, List.filter_filter]
        have : (List.range' (i + 1) m).filter
            (fun a => ((fun d => !decide (70 ≤ sim c d)) ∘ fun j => cards.getD j default) a &&
              !V.contains a) =
            (List.range' (i + 1) m).filter
            (fun j => !V.contains j && !decide (70 ≤ sim c (cards.getD j default))) := by
          apply List.filter_congr
          intro x _
          exact Bool.and_comm _ _
        rw [this]
      rw [hmatch, hrest2]
      simp

/-- The source loop and the specification's greedy algorithm compute the same
clusters. -/
theorem find_duplicate_clusters_eq_greedy (sim : Card → Card → ℚ) (cards : List Card) :
    find_duplicate_clusters sim cards = greedy_clusters sim cards := by
  unfold find_duplicate_clusters
  rw [List.range_eq_range',
    outer_foldl_spec sim cards cards.length 0 (by omega) [] []]
  have h1 : (List.range' 0 cards.length).filter
      (fun j => !([] : List Nat).contains j) = List.range' 0 cards.length := by
    have : (fun (j : Nat) => !([] : List Nat).contains j) = fun _ => true := by
      funext j; rfl
    rw [this, List.filter_true]
  rw [h1]
  have h2 : (List.range' 0 cards.length).map (fun j => cards.getD j default) = cards := by
    apply List.ext_getElem
    · simp
    · intro n hn1 hn2
      rw [List.getElem_map, List.getElem_range']
      rw [List.getD_eq_getElem cards default (by omega)]
      congr 1
      omega
  rw [h2]
  simp

theorem greedy_clusters_flatten_perm_aux (sim : Card → Card → ℚ) :
    ∀ (n : Nat) (l : List Card), l.length ≤ n →
      (greedy_clusters sim l).flatten.Perm l := by
  intro n
  induction n with
  | zero =>
    intro l hl
    have h : l = [] := List.eq_nil_of_length_eq_zero (by omega)
    subst h
    simp [greedy_clusters]
  | succ n ih =>
    intro l hl
    cases l with
    | nil => simp [greedy_clusters]
    | cons c rest =>
      rw [show greedy_clusters sim (c :: rest) =
          (c :: rest.filter (fun d => decide (70 ≤ sim c d))) ::
            greedy_clusters sim (rest.filter (fun d => !decide (70 ≤ sim c d))) from by
        rw [greedy_clusters]]
      rw [List.flatten_cons, List.cons_append]
      refine List.Perm.cons c ?_
      have hnm : (greedy_clusters sim
          (rest.filter (fun d => !decide (70 ≤ sim c d)))).flatten.Perm
          (rest.filter (fun d => !decide (70 ≤ sim c d))) := by
        refine ih _ ?_
        have := List.length_filter_le (fun d => !decide (70 ≤ sim c d)) rest
        simp only [List.length_cons] at hl
        omega
      exact (List.Perm.append_left _ hnm).trans
        (List.filter_append_perm (fun d => decide (70 ≤ sim c d)) rest)

theorem greedy_clusters_flatten_perm (sim : Card → Card → ℚ) (l : List Card) :
    (greedy_clusters sim l).flatten.Perm l :=
  greedy_clusters_flatten_perm_aux sim l.length l (Nat.le_refl _)

/-- C5: `find_duplicate_clusters` computes exactly the greedy single-pass
clustering the specification describes (seed each not-yet-visited contact,
absorb every later unvisited contact scoring at least 70 against the seed,
never rescan a visited contact); consequently the clusters contain every
input contact exactly once (their concatenation is a permutation of the
input).  The embedding is a pure function of its input, so re-running it on
the same list trivially returns the same partition. -/
theorem c5_clustering_is_greedy_single_pass (sim : Card → Card → ℚ) (cards : List Card) :
    find_duplicate_clusters sim cards = greedy_clusters sim cards ∧
    (find_duplicate_clusters sim cards).flatten.Perm cards := by
  refine ⟨find_duplicate_clusters_eq_greedy sim cards, ?_⟩
  rw [find_duplicate_clusters_eq_greedy sim cards]
  exact greedy_clusters_flatten_perm sim cards

/-- C5 witness: the refinement theorem at a concrete similarity function and
card list. -/
theorem c5_clustering_is_greedy_single_pass_witness :
    find_duplicate_clusters (fun a b => similarity (fun _ _ => 0) a b)
        [cardUidSourceA, cardUidSourceB] =
      greedy_clusters (fun a b => similarity (fun _ _ => 0) a b)
        [cardUidSourceA, cardUidSourceB] ∧
    (find_duplicate_clusters (fun a b => similarity (fun _ _ => 0) a b)
        [cardUidSourceA, cardUidSourceB]).flatten.Perm
      [cardUidSourceA, cardUidSourceB] :=
  c5_clustering_is_greedy_single_pass (fun a b => similarity (fun _ _ => 0) a b)
    [cardUidSourceA, cardUidSourceB]

/-! ### C1 — export of an ordinary canonicalized contact -/

/-- The card of the repository's own `test_basic.py` export test:
`Card(raw=None, fn="Alice", emails=["alice@example.com"], tels=["+4412345678"])`.
Like every card `normalize_cards` produces, it carries no
`typed_emails` / `typed_tels` attribute. -/
def cardAlice : Card :=
  { fn := some "Alice", emails := ["alice@example.com"], tels := ["+4412345678"] }

/-- The same card with the dynamic typed attributes present (only the web
server endpoint ever sets them). -/
def cardAliceTyped : Card :=
  { cardAlice with typed_emails := some [], typed_tels := some [] }

/-- C1 (code bug): `_serialise_one` reads `c.typed_emails` and
`c.typed_tels`, attributes the `Card` dataclass in `model.py` never declares
(`server.py` even imports a `TypedValue` class that `model.py` does not
define), so serialising an ordinary canonicalized contact raises
`AttributeError`, the blanket handler returns the empty string, and
`export_vcards` writes 0 records where the specification — and the
repository's own test, which asserts 1 — demand one record per contact.
The same card serialises as soon as the attributes exist. -/
theorem c1_ordinary_card_is_skipped :
    _serialise_one cardAlice "4.0" = "" ∧
    export_vcards [cardAlice] "4.0" = 0 ∧
    _serialise_one cardAliceTyped "4.0" ≠ "" ∧
    export_vcards [cardAliceTyped] "4.0" = 1 := by
  refine ⟨rfl, by decide, by decide, by decide⟩

end VCardNorm
